import Mathlib

/-!
Verification development for the cheetah campaign materializer and status
scanner (`codar/cheetah/launchers.py`, `codar/cheetah/status.py`,
`codar/cheetah/schedulers.py`, `codar/cheetah/adiosTransform.py`).

The Python code is shallowly embedded: filesystem state is explicit (a set of
directory paths plus a map from `(directory, filename)` pairs to file data,
mirroring the source's use of `os.path.join(dir, name)` for every file it
touches), machine integers are `Nat`/`Int`, and fallible operations return
`Except`/an error option, modelling Python exceptions.
-/

set_option autoImplicit false

/-! ## Status records and the status document (`status.py`) -/

/-- One per-run status record of the externally written
`codar.workflow.status.json` document: a `state` string, an optional
`reason` string and an optional per-component return-code mapping
(`st.get('reason')` / `st.get('return_codes')` in the source). -/
structure StatusRecord where
  state : String
  reason : Option String
  return_codes : Option (List (String × Int))
  deriving DecidableEq, Repr

/-- The fixed-key state-count dictionary
`dict(not_started=0, running=0, done=0, killed=0)` of `get_workflow_status`. -/
structure StateCounts where
  not_started : Nat
  running : Nat
  done : Nat
  killed : Nat
  deriving DecidableEq, Repr

/-- `state_counts[st['state']] += 1`: incrementing a fixed-key dict raises
`KeyError` for any key other than the four initialized ones. -/
def incState (c : StateCounts) (s : String) : Except String StateCounts :=
  if s = "not_started" then .ok { c with not_started := c.not_started + 1 }
  else if s = "running" then .ok { c with running := c.running + 1 }
  else if s = "done" then .ok { c with done := c.done + 1 }
  else if s = "killed" then .ok { c with killed := c.killed + 1 }
  else .error ("KeyError: " ++ s)

/-- Pointwise increment of a `defaultdict(int)` modelled as a total function
defaulting to `0`. -/
def bump {α : Type} [DecidableEq α] (f : α → Nat) (x : α) : α → Nat :=
  fun y => if y = x then f y + 1 else f y

/-- `reason = st.get('reason'); if reason: reason_counts[reason] += 1` —
a missing reason or an empty (falsy) string is not counted. -/
def recordReason (f : String → Nat) : Option String → (String → Nat)
  | none => f
  | some s => if s = "" then f else bump f s

/-- `return_codes = st.get('return_codes'); if return_codes: for rc in
return_codes.values(): rc_counts[rc] += 1` — flattens the per-component
mapping into value counts; a missing or empty (falsy) mapping contributes
nothing. -/
def recordRCs (f : Int → Nat) : Option (List (String × Int)) → (Int → Nat)
  | none => f
  | some l => if l = [] then f else l.foldl (fun g kv => bump g kv.2) f

/-- The accumulation loop of `get_workflow_status` over
`status_data.values()`: state count first (it can raise `KeyError`), then
reason count, then return-code counts. -/
def wsLoop : List (String × StatusRecord) → StateCounts → (String → Nat) →
    (Int → Nat) → Except String (StateCounts × (String → Nat) × (Int → Nat))
  | [], sc, rf, cf => .ok (sc, rf, cf)
  | e :: rest, sc, rf, cf =>
    match incState sc e.2.state with
    | .error m => .error m
    | .ok sc' => wsLoop rest sc' (recordReason rf e.2.reason)
        (recordRCs cf e.2.return_codes)

/-- The four summaries `get_workflow_status` returns: the per-run map
itself, the state counts, the reason counts and the flattened
return-code counts. -/
structure WStatus where
  status_data : List (String × StatusRecord)
  state_counts : StateCounts
  reason_counts : String → Nat
  rc_counts : Int → Nat

/-- `get_workflow_status` (status.py:156-210) on an already parsed status
document: a single linear pass building the four summaries.  The printing
modes (`print_counts`, `print_return_codes`) only render these summaries and
are not modelled. -/
def get_workflow_status (doc : List (String × StatusRecord)) :
    Except String WStatus :=
  match wsLoop doc ⟨0, 0, 0, 0⟩ (fun _ => 0) (fun _ => 0) with
  | .error m => .error m
  | .ok (sc, rf, cf) => .ok ⟨doc, sc, rf, cf⟩

/-! ### Spec-level counting functions used in theorem statements -/

/-- Number of records whose `state` equals `s`. -/
def cntState : List (String × StatusRecord) → String → Nat
  | [], _ => 0
  | e :: rest, s => (if e.2.state = s then 1 else 0) + cntState rest s

/-- Python truthiness of an optional string: `None` and `""` are falsy. -/
def truthy : Option String → Option String
  | none => none
  | some s => if s = "" then none else some s

/-- Number of records whose (truthy) `reason` equals `r`. -/
def cntReason : List (String × StatusRecord) → String → Nat
  | [], _ => 0
  | e :: rest, r =>
    (match truthy e.2.reason with
     | some s => if s = r then 1 else 0
     | none => 0) + cntReason rest r

/-- Number of records whose `reason` field is exactly `some r`. -/
def cntReasonEq : List (String × StatusRecord) → String → Nat
  | [], _ => 0
  | e :: rest, r => (if e.2.reason = some r then 1 else 0) + cntReasonEq rest r

/-- Occurrences of the value `v` among a component→return-code mapping. -/
def cntVals : List (String × Int) → Int → Nat
  | [], _ => 0
  | kv :: rest, v => (if kv.2 = v then 1 else 0) + cntVals rest v

/-- Occurrences of the return-code value `v` across all components of all
records (the flattening of the per-component mappings). -/
def cntRC : List (String × StatusRecord) → Int → Nat
  | [], _ => 0
  | e :: rest, v => cntVals (e.2.return_codes.getD []) v + cntRC rest v

/-- A record state the fixed-key count table knows. -/
def validState (s : String) : Bool :=
  s = "not_started" || s = "running" || s = "done" || s = "killed"

/-! ## Per-group lifecycle scanning (`print_campaign_status`) -/

/-- The status document of a group directory: absent, present but
unparseable (`json.load` raises), or parsed. -/
inductive StatusDoc where
  | absent
  | malformed
  | parsed (doc : List (String × StatusRecord))
  deriving DecidableEq

/-- The artifacts of one group directory that `print_campaign_status`
inspects: the job-id file (content, if present), the status document and
the presence of the walltime-record file. -/
structure GroupDir where
  jobid : Option String
  status : StatusDoc
  walltime_present : Bool
  deriving DecidableEq

/-- The per-group report line printed by `print_campaign_status`. -/
inductive GroupReport where
  | notSubmitted
  | notStarted
  | done
  | doneFailed (failed total : Nat)
  | inProgress (jobid : String) (settled total : Nat)
  deriving DecidableEq, Repr

/-- Python whitespace stripped by `str.strip()`. -/
def pyWS (c : Char) : Bool :=
  c = ' ' || c = '\t' || c = '\n' || c = '\r'

/-- `str.strip()`: drop leading and trailing whitespace. -/
def pyStrip (s : String) : String :=
  ⟨((s.data.dropWhile pyWS).reverse.dropWhile pyWS).reverse⟩

/-- `str.split(sep)` for a one-character separator, over the character
list. -/
def splitOnChar (c : Char) : List Char → List (List Char)
  | [] => [[]]
  | x :: xs =>
    match splitOnChar c xs, decide (x = c) with
    | r, true => [] :: r
    | [], false => [[x]]
    | y :: ys, false => (x :: y) :: ys

/-- `content.strip().split(':')`. -/
def splitColon (content : String) : List String :=
  (splitOnChar ':' (pyStrip content).data).map (fun l => ⟨l⟩)

/-- `jobid = f.read().strip(); jobid = jobid.split(':')[1]` — raises
`IndexError` when the content holds no `':'`. -/
def parse_jobid (content : String) : Option String :=
  (splitColon content).get? 1

/-- The per-group body of `print_campaign_status` (status.py:31-74): the
job-id file is checked first (absent → `NOT SUBMITTED` with nothing else
read), its content is split immediately, then the status document decides
between `NOT STARTED`, `DONE` (walltime record present) and `IN PROGRESS`.
Errors (`IndexError`, `json.load` failure, `KeyError` from the count
table) propagate as `.error`. -/
def scan_group (g : GroupDir) : Except String GroupReport :=
  match g.jobid with
  | none => .ok .notSubmitted
  | some content =>
    match parse_jobid content with
    | none => .error "IndexError"
    | some jobid =>
      match g.status with
      | .absent => .ok .notStarted
      | .malformed => .error "json.JSONDecodeError"
      | .parsed doc =>
        match get_workflow_status doc with
        | .error e => .error e
        | .ok w =>
          let total := w.status_data.length
          if g.walltime_present then
            let ok := w.reason_counts "succeeded"
            if ok < total then .ok (.doneFailed (total - ok) total)
            else .ok .done
          else
            let in_progress := w.state_counts.running + w.state_counts.not_started
            .ok (.inProgress jobid (total - in_progress) total)

/-- The group loop of `print_campaign_status` for one user: groups are
filtered by name, each surviving group is scanned and its report line
collected; a raised error aborts the whole loop (there is no per-group
exception handling in the source). -/
def scan_groups (user : String) (filter_group : Option (List String)) :
    List (String × GroupDir) → List (String × GroupReport) × Option String
  | [] => ([], none)
  | (name, g) :: rest =>
    match filter_group with
    | some fl =>
      if name ∈ fl then
        match scan_group g with
        | .error e => ([], some e)
        | .ok rep =>
          let (ls, err) := scan_groups user filter_group rest
          ((user ++ "/" ++ name, rep) :: ls, err)
      else scan_groups user filter_group rest
    | none =>
      match scan_group g with
      | .error e => ([], some e)
      | .ok rep =>
        let (ls, err) := scan_groups user filter_group rest
        ((user ++ "/" ++ name, rep) :: ls, err)

/-- `print_campaign_status` (status.py:14-74) over the campaign tree,
abstracted to the user/group listing the directory walk produces: returns
the report lines printed before any error, and the first error raised (which
aborts the remaining groups and users, as an uncaught Python exception
does). -/
def print_campaign_status (filter_user filter_group : Option (List String)) :
    List (String × List (String × GroupDir)) →
    List (String × GroupReport) × Option String
  | [] => ([], none)
  | (user, groups) :: more =>
    match filter_user with
    | some fl =>
      if user ∈ fl then
        match scan_groups user filter_group groups with
        | (ls, some e) => (ls, some e)
        | (ls, none) =>
          let (ls2, err) := print_campaign_status filter_user filter_group more
          (ls ++ ls2, err)
      else print_campaign_status filter_user filter_group more
    | none =>
      match scan_groups user filter_group groups with
      | (ls, some e) => (ls, some e)
      | (ls, none) =>
        let (ls2, err) := print_campaign_status filter_user filter_group more
        (ls ++ ls2, err)

/-! ## Run materializer data model (`launchers.py`) -/

/-- A file path as the `(directory, filename)` pair the source builds with
`os.path.join`. -/
abbrev FPath := String × String

/-- One element of `run.get_codes_argv_with_exe_and_nprocs()`: component
name, argument vector (`argv = exe :: args`), process count and post-launch
sleep. -/
structure CodeSpec where
  cname : String
  exe : String
  args : List String
  nprocs : Nat
  sleep_after : Option Nat
  deriving DecidableEq

/-- One `ParamAdiosXML` parameter value: the staged XML file to edit and the
`group:variable -> transform value` assignment. -/
structure AdiosParam where
  xml_filename : String
  group_name : String
  var_name : String
  value : String
  deriving DecidableEq

/-- A `Run` as the materializer consumes it: id, working directory, staged
inputs, ADIOS transform parameters, code invocations, and the serialized
`run.as_dict()` parameter record (opaque to the materializer, kept as a
string). -/
structure Run where
  run_id : String
  run_path : String
  inputs : List FPath
  adios_params : List AdiosParam
  codes : List CodeSpec
  as_dict : String
  deriving DecidableEq

/-- An environment value placed in a Job Descriptor's `env` map: the source
mixes strings (paths) and integers (port, flags, rank offsets). -/
inductive EnvVal where
  | str (s : String)
  | int (n : Nat)
  deriving DecidableEq

/-- One entry of a Job Descriptor's `runs` list (launchers.py:154-161). -/
structure FobRunEntry where
  name : String
  exe : String
  args : List String
  nprocs : Nat
  sleep_after : Option Nat
  env : List (String × EnvVal)
  timeout : Option Nat
  deriving DecidableEq

/-- A Job Descriptor ("FOB", launchers.py:167-173). -/
structure Fob where
  id : String
  runs : List FobRunEntry
  working_dir : String
  kill_on_partial_failure : Bool
  post_process_script : Option String
  post_process_stop_on_failure : Bool
  post_process_args : List FPath
  deriving DecidableEq

/-- The `Launcher` configuration fields `create_group_directory` reads:
machine name, scheduler name, group output directory, plus the
`config.CHEETAH_PATH_SCRIPTS` root (the `config` module is a constant table
and is carried here as a field). -/
structure LauncherCfg where
  machine_name : String
  scheduler_name : String
  output_directory : String
  scripts_root : String
  deriving DecidableEq

/-- The machine description used for the telemetry sidecar wiring. -/
structure Machine where
  processes_per_node : Nat
  deriving DecidableEq

/-- The scalar arguments of `create_group_directory`.  `walltime` and
`timeout` are already in seconds (`helpers.parse_timedelta_seconds` is a
unit conversion not in src and not load-bearing for any claim). -/
structure GroupArgs where
  campaign_name : String
  group_name : String
  max_nprocs : Nat
  processes_per_node : Nat
  nodes : Nat
  walltime : Nat
  node_exclusive : Bool
  timeout : Option Nat
  tau_config : Option FPath
  kill_on_partial_failure : Bool
  run_post_process_script : Option String
  run_post_process_stop_on_failure : Bool
  sos : Bool
  deriving DecidableEq

/-! ## Filesystem model -/

/-- Data a file can hold in the model: plain text, the variable table of an
ADIOS XML document (each `(group, var)` with its current transform value),
one serialized Job Descriptor, or the line-delimited aggregate of Job
Descriptors.  `json.dumps` is deterministic, so a descriptor line is
represented by the descriptor value itself: equal values serialize to the
identical line. -/
inductive FData where
  | text (s : String)
  | xml (vars : List ((String × String) × String))
  | fob (f : Fob)
  | fobLines (l : List Fob)
  deriving DecidableEq

/-- The filesystem: the set of existing directory paths and the file map. -/
structure FS where
  dirs : List String
  files : List (FPath × FData)
  deriving DecidableEq

/-- Read a file (first write wins in the association list, i.e. the newest). -/
def FS.read (fs : FS) (p : FPath) : Option FData :=
  (fs.files.find? (fun e => e.1 = p)).map (·.2)

/-- Write (create or overwrite) a file. -/
def FS.writeFile (fs : FS) (p : FPath) (d : FData) : FS :=
  { fs with files := (p, d) :: fs.files }

/-- `os.makedirs(d, exist_ok=True)`: a pre-existing directory is reused. -/
def FS.mkdirOk (fs : FS) (d : String) : FS :=
  if d ∈ fs.dirs then fs else { fs with dirs := d :: fs.dirs }

/-- `os.makedirs(d)` without `exist_ok`: raises `FileExistsError` when the
directory already exists. -/
def FS.mkdirStrict (fs : FS) (d : String) : FS × Option String :=
  if d ∈ fs.dirs then (fs, some "FileExistsError")
  else ({ fs with dirs := d :: fs.dirs }, none)

/-- `shutil.copytree(src, dst)`: fails when the destination already exists
(or the source is missing); otherwise creates the destination directory.
The copied script files themselves are not inspected by anything modelled
here and are abstracted away. -/
def FS.copytree (fs : FS) (src dst : String) : FS × Option String :=
  if src ∉ fs.dirs then (fs, some "FileNotFoundError")
  else if dst ∈ fs.dirs then (fs, some "FileExistsError")
  else ({ fs with dirs := dst :: fs.dirs }, none)

/-- `shutil.copy`/`copy2` of file `src` into directory `dstDir` (the
metadata-preserving difference of `copy2` is invisible in the model). -/
def FS.copyInto (fs : FS) (src : FPath) (dstDir : String) : FS × Option String :=
  match fs.read src with
  | none => (fs, some "FileNotFoundError")
  | some d => (fs.writeFile (dstDir, src.2) d, none)

/-! ## Materializer operations -/

/-- Staging the declared static inputs: `for input_rpath in run.inputs:
shutil.copy2(input_rpath, run.run_path + "/.")`; the first failure raises. -/
def copyInputs : List FPath → String → FS → FS × Option String
  | [], _, fs => (fs, none)
  | src :: rest, dstDir, fs =>
    match fs.copyInto src dstDir with
    | (fs', some e) => (fs', some e)
    | (fs', none) => copyInputs rest dstDir fs'

/-- Modelled from the spec: the `adios_transform` collaborator module the
launcher imports is not under src (only the differently named
`adiosTransform.py` prototype is).  Per spec §4.2 step 3, the operation is
keyed `file:group:variable -> transform value`; a missing file fails the
parse and "failure to locate the target variable is a fatal configuration
error for that run" (in the prototype, `tree.find` returns `None` and the
attribute set raises). -/
def adios_xml_transform (fs : FS) (p : FPath) (group var value : String) :
    FS × Option String :=
  match fs.read p with
  | none => (fs, some "FileNotFoundError")
  | some (FData.xml vars) =>
    if (vars.find? (fun e => e.1 = (group, var))).isSome then
      (fs.writeFile p (.xml (vars.map
        (fun e => if e.1 = (group, var) then (e.1, value) else e))), none)
    else (fs, some "AttributeError")
  | some _ => (fs, some "ParseError")

/-- The per-run ADIOS XML parameter loop (launchers.py:109-114). -/
def applyAdios : List AdiosParam → String → FS → FS × Option String
  | [], _, fs => (fs, none)
  | pv :: rest, run_path, fs =>
    match adios_xml_transform fs (run_path, pv.xml_filename)
        pv.group_name pv.var_name pv.value with
    | (fs', some e) => (fs', some e)
    | (fs', none) => applyAdios rest run_path fs'

/-- `math.ceil(nprocs / ppn)` on non-negative integers. -/
def pyCeilDiv (a b : Nat) : Nat := (a + b - 1) / b

/-- Prefix test on character lists. -/
def isPrefixL : List Char → List Char → Bool
  | [], _ => true
  | _ :: _, [] => false
  | a :: as, b :: bs => a = b && isPrefixL as bs

/-- Substring test on character lists. -/
def containsL (pat : List Char) : List Char → Bool
  | [] => isPrefixL pat []
  | x :: rest => isPrefixL pat (x :: rest) || containsL pat rest

/-- `re.search('titan', machine_name, re.IGNORECASE)` as a case-folded
substring test. -/
def matchesTitan (machine_name : String) : Bool :=
  containsL "titan".data (machine_name.data.map Char.toLower)

/-- `Launcher.add_sos_env` (launchers.py:193-227): appends the SOSflow
variables to the invocation's environment in source order; the
`LD_LIBRARY_PATH` override only on Titan-named machines. -/
def add_sos_env (machine_name run_path : String) (ppn node_index : Nat)
    (env : List (String × EnvVal)) : List (String × EnvVal) :=
  env ++ [("SOS_CMD_PORT", .int 22500),
          ("SOS_EVPATH_MEETUP", .str run_path),
          ("TAU_SOS", .int 1)]
      ++ (if matchesTitan machine_name then
            [("LD_LIBRARY_PATH",
              .str "${LD_LIBRARY_PATH}:/sw/xk6/flexpath/1.12/cle5.2_gnu4.9.3/lib")]
          else [])
      ++ [("SOS_APP_RANKS_PER_NODE", .int ppn),
          ("SOS_LISTENER_RANK_OFFSET", .int node_index)]

/-- `TAU_PROFILE_PATTERN = "codar.cheetah.tau-{code}"` joined under the run
directory. -/
def tauDir (run_path cname : String) : String :=
  run_path ++ "/codar.cheetah.tau-" ++ cname

/-- The inner invocation loop of `create_group_directory`
(launchers.py:133-162): per code, create the profiling directory (without
`exist_ok` — a pre-existing directory raises), build the environment (with
the sidecar wiring when `sos` is set), advance the listener-rank offset by
`ceil(nprocs / machine.processes_per_node)`, and collect the descriptor
entry. -/
def processCodes (machine_name : String) (ppn : Nat) (sos : Bool)
    (timeout : Option Nat) (run_path : String) :
    List CodeSpec → FS → Nat → FS × Except String (List FobRunEntry × Nat)
  | [], fs, idx => (fs, .ok ([], idx))
  | c :: rest, fs, idx =>
    match fs.mkdirStrict (tauDir run_path c.cname) with
    | (fs1, some e) => (fs1, .error e)
    | (fs1, none) =>
      let baseEnv : List (String × EnvVal) :=
        [("PROFILEDIR", .str (tauDir run_path c.cname))]
      let env := if sos then add_sos_env machine_name run_path ppn idx baseEnv
                 else baseEnv
      let idx' := if sos then idx + pyCeilDiv c.nprocs ppn else idx
      let entry : FobRunEntry :=
        { name := c.cname, exe := c.exe, args := c.args, nprocs := c.nprocs,
          sleep_after := c.sleep_after, env := env, timeout := timeout }
      match processCodes machine_name ppn sos timeout run_path rest fs1 idx' with
      | (fs2, .error e) => (fs2, .error e)
      | (fs2, .ok (es, idxF)) => (fs2, .ok (entry :: es, idxF))

/-- The descriptor entries of one run as a pure function of the inputs: the
inner loop touches the filesystem only to create profiling directories, so
on success its collected entries equal this list. -/
def fobEntriesPure (machine_name : String) (ppn : Nat) (sos : Bool)
    (timeout : Option Nat) (run_path : String) :
    List CodeSpec → Nat → List FobRunEntry
  | [], _ => []
  | c :: rest, idx =>
    let baseEnv : List (String × EnvVal) :=
      [("PROFILEDIR", .str (tauDir run_path c.cname))]
    let env := if sos then add_sos_env machine_name run_path ppn idx baseEnv
               else baseEnv
    let idx' := if sos then idx + pyCeilDiv c.nprocs ppn else idx
    { name := c.cname, exe := c.exe, args := c.args, nprocs := c.nprocs,
      sleep_after := c.sleep_after, env := env, timeout := timeout }
      :: fobEntriesPure machine_name ppn sos timeout run_path rest idx'

/-- The command-text file content (launchers.py:119-122): one line per
invocation.  `shlex.quote` is abstracted away (the quoted text is read by
no modelled component). -/
def cmdText (r : Run) : String :=
  String.intercalate "\n"
    (r.codes.map (fun c => String.intercalate " " (c.exe :: c.args))) ++ "\n"

/-- Assemble the Job Descriptor (launchers.py:164-173). -/
def mkFob (a : GroupArgs) (r : Run) (entries : List FobRunEntry) : Fob :=
  { id := r.run_id, runs := entries, working_dir := r.run_path,
    kill_on_partial_failure := a.kill_on_partial_failure,
    post_process_script := a.run_post_process_script,
    post_process_stop_on_failure := a.run_post_process_stop_on_failure,
    post_process_args := [(r.run_path, "codar.cheetah.fob.json")] }

/-- The Job Descriptor a successful materialization writes for `r`. -/
def pureFob (cfg : LauncherCfg) (machine : Machine) (a : GroupArgs) (r : Run) : Fob :=
  mkFob a r (fobEntriesPure cfg.machine_name machine.processes_per_node a.sos
    a.timeout r.run_path r.codes 0)

/-- Steps 1-4 of the per-run body of `create_group_directory`
(launchers.py:96-131): create the run directory (tolerating pre-existence),
stage the optional TAU configuration and the static inputs, apply the ADIOS
transforms, and write the command-text and parameter-JSON files.  Returns
the filesystem reached (also on failure, as a raised exception leaves all
earlier writes in place). -/
def stageRun (a : GroupArgs) (r : Run) (fs : FS) : FS × Option String :=
  let fs0 := fs.mkdirOk r.run_path
  match (match a.tau_config with
         | none => (fs0, none)
         | some src => fs0.copyInto src r.run_path) with
  | (fs1, some e) => (fs1, some e)
  | (fs1, none) =>
    match copyInputs r.inputs r.run_path fs1 with
    | (fs2, some e) => (fs2, some e)
    | (fs2, none) =>
      match applyAdios r.adios_params r.run_path fs2 with
      | (fs3, some e) => (fs3, some e)
      | (fs3, none) =>
        ((fs3.writeFile (r.run_path, "codar.cheetah.run-params.txt")
            (.text (cmdText r))).writeFile
          (r.run_path, "codar.cheetah.run-params.json") (.text r.as_dict),
         none)

/-- The per-run body of `create_group_directory` (launchers.py:96-179) up to
and including the standalone descriptor write; the caller appends the same
descriptor to the aggregate file. -/
def processRun (cfg : LauncherCfg) (machine : Machine) (a : GroupArgs)
    (r : Run) (fs : FS) : FS × Except String Fob :=
  match stageRun a r fs with
  | (fs5, some e) => (fs5, .error e)
  | (fs5, none) =>
    match processCodes cfg.machine_name machine.processes_per_node a.sos
        a.timeout r.run_path r.codes fs5 0 with
    | (fs6, .error e) => (fs6, .error e)
    | (fs6, .ok (entries, _)) =>
      let fob := mkFob a r entries
      (fs6.writeFile (r.run_path, "codar.cheetah.fob.json") (.fob fob),
       .ok fob)

/-- The aggregate descriptor file of a group directory, `fobs.json`. -/
def fobsPath (cfg : LauncherCfg) : FPath := (cfg.output_directory, "fobs.json")

/-- The run loop of `create_group_directory`: each successfully materialized
run's descriptor is appended as one line to the open aggregate file; a
failure stops the loop with all earlier writes (and lines) in place. -/
def materializeRuns (cfg : LauncherCfg) (machine : Machine) (a : GroupArgs) :
    List Run → FS → List Fob → FS × Option String
  | [], fs, _ => (fs, none)
  | r :: rest, fs, acc =>
    match processRun cfg machine a r fs with
    | (fs', .error e) => (fs', some e)
    | (fs', .ok fob) =>
      let fs'' := fs'.writeFile (fobsPath cfg) (.fobLines (acc ++ [fob]))
      materializeRuns cfg machine a rest fs'' (acc ++ [fob])

/-- The scheduler script template directory
`os.path.join(config.CHEETAH_PATH_SCRIPTS, scheduler_name, 'group')`. -/
def scriptDir (cfg : LauncherCfg) : String :=
  cfg.scripts_root ++ "/" ++ cfg.scheduler_name ++ "/group"

/-- The `ValueError` message of the unsupported-scheduler check. -/
def unsupportedMsg (cfg : LauncherCfg) : String :=
  "ValueError: scheduler " ++ cfg.scheduler_name ++ " is not yet supported"

/-- Modelled from the spec: the `templates` module (the
`GROUP_ENV_TEMPLATE` text of §2's Environment/Script Templater) is not
under src; its rendering is a fixed-slot fill-in, carried here as a
deterministic function of the slot values. -/
def groupEnvRender (a : GroupArgs) (schedOpts : List (String × String)) : String :=
  String.intercalate "\n"
    [toString a.walltime, toString a.max_nprocs, toString a.processes_per_node,
     toString a.nodes, toString a.node_exclusive,
     ((schedOpts.find? (fun kv => kv.1 = "project")).map (·.2)).getD "",
     ((schedOpts.find? (fun kv => kv.1 = "queue")).map (·.2)).getD "",
     "codar.cheetah." ++ a.campaign_name, a.group_name,
     ((schedOpts.find? (fun kv => kv.1 = "constraint")).map (·.2)).getD "",
     ((schedOpts.find? (fun kv => kv.1 = "license")).map (·.2)).getD ""]

/-- `Launcher.create_group_directory` (launchers.py:58-183): check the
scheduler's template directory (raising `ValueError` before touching
anything), copy the script tree to the group output directory, write
`group-env.sh`, open (truncating) the aggregate `fobs.json`, then
materialize each run in order. -/
def create_group_directory (cfg : LauncherCfg) (machine : Machine)
    (a : GroupArgs) (schedOpts : List (String × String)) (runs : List Run)
    (fs : FS) : FS × Option String :=
  if scriptDir cfg ∉ fs.dirs then (fs, some (unsupportedMsg cfg))
  else
    match fs.copytree (scriptDir cfg) cfg.output_directory with
    | (fs', some e) => (fs', some e)
    | (fs', none) =>
      let fs1 := fs'.writeFile (cfg.output_directory, "group-env.sh")
        (.text (groupEnvRender a schedOpts))
      let fs2 := fs1.writeFile (fobsPath cfg) (.fobLines [])
      materializeRuns cfg machine a runs fs2 []

/-- Listener-rank offset the spec ascribes to invocation `j`: the sum of
`ceil(nprocs_k / ppn)` over all prior invocations `k < j`. -/
def sosOffset (ppn : Nat) (codes : List CodeSpec) (j : Nat) : Nat :=
  ((codes.take j).map (fun c => pyCeilDiv c.nprocs ppn)).sum

/-- Lookup in a descriptor entry's environment map. -/
def envLookup (e : FobRunEntry) (k : String) : Option EnvVal :=
  (e.env.find? (fun kv => kv.1 = k)).map (·.2)

/-! ## Concrete fixtures used by witnesses and counterexamples -/

/-- Three runs, one of which timed out (spec §8 scenario C shape). -/
def exDocOneFail : List (String × StatusRecord) :=
  [("run-000", ⟨"done", some "succeeded", some [("sim", 0), ("ana", 0)]⟩),
   ("run-001", ⟨"done", some "failed_timeout", some [("sim", 1)]⟩),
   ("run-002", ⟨"done", some "succeeded", none⟩)]

/-- Five runs, two still running (spec §8 scenario D shape). -/
def exDocRunning : List (String × StatusRecord) :=
  [("run-000", ⟨"running", none, none⟩),
   ("run-001", ⟨"running", none, none⟩),
   ("run-002", ⟨"done", some "succeeded", some [("sim", 0)]⟩),
   ("run-003", ⟨"done", some "succeeded", none⟩),
   ("run-004", ⟨"done", some "succeeded", none⟩)]

/-- A record whose state is outside the fixed count table. -/
def exDocBadState : List (String × StatusRecord) :=
  [("run-000", ⟨"done", some "succeeded", none⟩),
   ("run-001", ⟨"exploded", none, none⟩)]

/-- A record with neither `reason` nor `return_codes`. -/
def exDocMissing : List (String × StatusRecord) :=
  [("run-000", ⟨"done", none, none⟩)]

/-- Status document and walltime record both present, job-id file absent. -/
def exGroupNoJobid : GroupDir :=
  { jobid := none, status := .parsed exDocOneFail, walltime_present := true }

/-- A complete DONE-state group with one failed run. -/
def exGroupDone : GroupDir :=
  { jobid := some "local:42", status := .parsed exDocOneFail,
    walltime_present := true }

/-- Status document present, walltime absent, job-id file absent. -/
def exGroupNoJobidRunning : GroupDir :=
  { jobid := none, status := .parsed exDocRunning, walltime_present := false }

/-- An in-progress group. -/
def exGroupInProgress : GroupDir :=
  { jobid := some "pbs:777", status := .parsed exDocRunning,
    walltime_present := false }

/-- Job-id file whose content holds no colon, status document absent. -/
def exGroupBadJobid : GroupDir :=
  { jobid := some "12345", status := .absent, walltime_present := false }

/-- No job-id file; the other artifacts are malformed/present and must not
be read. -/
def exGroupOnlyMalformed : GroupDir :=
  { jobid := none, status := .malformed, walltime_present := true }

/-- Submitted but no status document yet. -/
def exGroupSubmitted : GroupDir :=
  { jobid := some "local:9", status := .absent, walltime_present := false }

/-- A healthy group that a scan would report as `NOT SUBMITTED`. -/
def exGroupHealthy : GroupDir :=
  { jobid := none, status := .absent, walltime_present := false }

/-- A group whose status document is unparseable. -/
def exGroupMalformed : GroupDir :=
  { jobid := some "local:1", status := .malformed, walltime_present := false }

/-- A campaign whose first user has a malformed group followed by a healthy
one, and a second user after that. -/
def exCampaign : List (String × List (String × GroupDir)) :=
  [("alice", [("g1", exGroupMalformed), ("g2", exGroupHealthy)]),
   ("bob", [("g3", exGroupHealthy)])]

/-- Launcher configuration fixture. -/
def exCfg : LauncherCfg :=
  { machine_name := "titan", scheduler_name := "local",
    output_directory := "/campaign/u/g1", scripts_root := "/cheetah/scripts" }

/-- Configuration naming a scheduler with no template directory. -/
def exCfgBad : LauncherCfg :=
  { machine_name := "titan", scheduler_name := "slurm",
    output_directory := "/campaign/u/g1", scripts_root := "/cheetah/scripts" }

def exMachine : Machine := { processes_per_node := 2 }

def exArgs : GroupArgs :=
  { campaign_name := "heat", group_name := "g1", max_nprocs := 4,
    processes_per_node := 2, nodes := 1, walltime := 3600,
    node_exclusive := false, timeout := none, tau_config := none,
    kill_on_partial_failure := false, run_post_process_script := none,
    run_post_process_stop_on_failure := false, sos := true }

def exRun1 : Run :=
  { run_id := "run-000", run_path := "/campaign/u/g1/run-000", inputs := [],
    adios_params := [],
    codes := [⟨"sim", "/bin/sim", ["-x"], 3, none⟩,
              ⟨"ana", "/bin/ana", [], 1, none⟩],
    as_dict := "run-000-params" }

def exRun2 : Run :=
  { run_id := "run-001", run_path := "/campaign/u/g1/run-001", inputs := [],
    adios_params := [],
    codes := [⟨"sim", "/bin/sim", ["-y"], 2, none⟩],
    as_dict := "run-001-params" }

/-- A single-invocation run. -/
def exRunSolo : Run :=
  { run_id := "run-000", run_path := "/campaign/u/g1/run-000", inputs := [],
    adios_params := [],
    codes := [⟨"sim", "/bin/sim", ["-x"], 3, none⟩],
    as_dict := "run-000-params" }

/-- A fresh filesystem holding only the local scheduler's template
directory. -/
def exFS : FS := { dirs := ["/cheetah/scripts/local/group"], files := [] }

/-- Filesystem where `exRun1`'s run directory already exists but no
profiling directory does. -/
def exFSRunDir : FS :=
  { dirs := ["/cheetah/scripts/local/group", "/campaign/u/g1/run-000"],
    files := [] }

/-- Filesystem where `exRun1`'s first profiling directory already exists. -/
def exFSTauDir : FS :=
  { dirs := ["/cheetah/scripts/local/group", "/campaign/u/g1/run-000",
             "/campaign/u/g1/run-000/codar.cheetah.tau-sim"],
    files := [] }

/-! ## Helper lemmas: status aggregation -/

theorem incState_ok_not_started (c : StateCounts) :
    incState c "not_started" = .ok { c with not_started := c.not_started + 1 } := by
  simp [incState]

theorem incState_ok_running (c : StateCounts) :
    incState c "running" = .ok { c with running := c.running + 1 } := by
  simp [incState]

theorem incState_ok_done (c : StateCounts) :
    incState c "done" = .ok { c with done := c.done + 1 } := by
  simp [incState]

theorem incState_ok_killed (c : StateCounts) :
    incState c "killed" = .ok { c with killed := c.killed + 1 } := by
  simp [incState]

theorem incState_err (c : StateCounts) (s : String)
    (h : validState s = false) : incState c s = .error ("KeyError: " ++ s) := by
  simp only [validState, Bool.or_eq_false_iff, decide_eq_false_iff_not] at h
  obtain ⟨⟨⟨h1, h2⟩, h3⟩, h4⟩ := h
  simp [incState, h1, h2, h3, h4]

theorem wsLoop_cons_ok {e : String × StatusRecord}
    {rest : List (String × StatusRecord)} {sc sc' : StateCounts}
    {rf : String → Nat} {cf : Int → Nat}
    (h : incState sc e.2.state = .ok sc') :
    wsLoop (e :: rest) sc rf cf
      = wsLoop rest sc' (recordReason rf e.2.reason)
          (recordRCs cf e.2.return_codes) := by
  simp only [wsLoop, h]

theorem wsLoop_cons_err {e : String × StatusRecord}
    {rest : List (String × StatusRecord)} {sc : StateCounts}
    {rf : String → Nat} {cf : Int → Nat} {m : String}
    (h : incState sc e.2.state = .error m) :
    wsLoop (e :: rest) sc rf cf = .error m := by
  simp only [wsLoop, h]

theorem bump_point {α : Type} [DecidableEq α] (f : α → Nat) (x y : α) :
    bump f x y = f y + (if x = y then 1 else 0) := by
  by_cases h : y = x
  · subst h; simp [bump]
  · simp [bump, h, Ne.symm h]

theorem recordReason_point (rf : String → Nat) (o : Option String) (r : String) :
    recordReason rf o r
      = rf r + (match truthy o with
                | some s => if s = r then 1 else 0
                | none => 0) := by
  match o with
  | none => simp [recordReason, truthy]
  | some s =>
    by_cases h : s = ""
    · simp [recordReason, truthy, h]
    · simp only [recordReason, truthy, if_neg h]
      exact bump_point rf s r

theorem foldl_bump (l : List (String × Int)) :
    ∀ (f : Int → Nat) (v : Int),
      (l.foldl (fun g kv => bump g kv.2) f) v = f v + cntVals l v := by
  induction l with
  | nil => intro f v; simp [cntVals]
  | cons kv rest ih =>
    intro f v
    simp only [List.foldl_cons, cntVals]
    rw [ih (bump f kv.2) v, bump_point]
    omega

theorem recordRCs_point (cf : Int → Nat) (o : Option (List (String × Int)))
    (v : Int) : recordRCs cf o v = cf v + cntVals (o.getD []) v := by
  match o with
  | none => simp [recordRCs, cntVals]
  | some l =>
    by_cases h : l = []
    · simp [recordRCs, h, cntVals]
    · simp only [recordRCs, if_neg h, Option.getD]
      exact foldl_bump l cf v

theorem wsLoop_ok :
    ∀ (doc : List (String × StatusRecord)) (sc : StateCounts)
      (rf : String → Nat) (cf : Int → Nat),
      (∀ e ∈ doc, validState e.2.state = true) →
      wsLoop doc sc rf cf = .ok
        (⟨sc.not_started + cntState doc "not_started",
          sc.running + cntState doc "running",
          sc.done + cntState doc "done",
          sc.killed + cntState doc "killed"⟩,
         fun r => rf r + cntReason doc r,
         fun v => cf v + cntRC doc v) := by
  intro doc
  induction doc with
  | nil => intro sc rf cf _; simp [wsLoop, cntState, cntReason, cntRC]
  | cons e rest ih =>
    intro sc rf cf hv
    have hval : validState e.2.state = true := hv e (List.mem_cons_self e rest)
    have hrest : ∀ x ∈ rest, validState x.2.state = true :=
      fun x hx => hv x (List.mem_cons_of_mem e hx)
    have hreason : (fun r => recordReason rf e.2.reason r + cntReason rest r)
        = fun r => rf r + cntReason (e :: rest) r := by
      funext r
      rw [recordReason_point]
      simp only [cntReason]
      omega
    have hrc : (fun v => recordRCs cf e.2.return_codes v + cntRC rest v)
        = fun v => cf v + cntRC (e :: rest) v := by
      funext v
      rw [recordRCs_point]
      simp only [cntRC]
      omega
    simp only [validState, Bool.or_eq_true, decide_eq_true_eq] at hval
    rcases hval with ((h | h) | h) | h
    · rw [wsLoop_cons_ok (by rw [h]; exact incState_ok_not_started sc),
        ih _ _ _ hrest, hreason, hrc]
      simp [cntState, h]
      omega
    · rw [wsLoop_cons_ok (by rw [h]; exact incState_ok_running sc),
        ih _ _ _ hrest, hreason, hrc]
      simp [cntState, h]
      omega
    · rw [wsLoop_cons_ok (by rw [h]; exact incState_ok_done sc),
        ih _ _ _ hrest, hreason, hrc]
      simp [cntState, h]
      omega
    · rw [wsLoop_cons_ok (by rw [h]; exact incState_ok_killed sc),
        ih _ _ _ hrest, hreason, hrc]
      simp [cntState, h]
      omega

theorem get_workflow_status_ok (doc : List (String × StatusRecord))
    (hv : ∀ e ∈ doc, validState e.2.state = true) :
    get_workflow_status doc = .ok
      ⟨doc,
       ⟨cntState doc "not_started", cntState doc "running",
        cntState doc "done", cntState doc "killed"⟩,
       fun r => cntReason doc r, fun v => cntRC doc v⟩ := by
  rw [get_workflow_status, wsLoop_ok doc _ _ _ hv]
  simp

theorem wsLoop_err :
    ∀ (doc : List (String × StatusRecord)) (sc : StateCounts)
      (rf : String → Nat) (cf : Int → Nat),
      (∃ e ∈ doc, validState e.2.state = false) →
      ∃ m, wsLoop doc sc rf cf = .error m := by
  intro doc
  induction doc with
  | nil => intro sc rf cf h; rcases h with ⟨e, he, _⟩; cases he
  | cons e rest ih =>
    intro sc rf cf h
    by_cases hval : validState e.2.state = true
    · have hbad : ∃ x ∈ rest, validState x.2.state = false := by
        rcases h with ⟨x, hx, hxf⟩
        rcases List.mem_cons.mp hx with rfl | hx'
        · rw [hval] at hxf; cases hxf
        · exact ⟨x, hx', hxf⟩
      simp only [validState, Bool.or_eq_true, decide_eq_true_eq] at hval
      rcases hval with ((h' | h') | h') | h'
      · rw [wsLoop_cons_ok (by rw [h']; exact incState_ok_not_started sc)]
        exact ih _ _ _ hbad
      · rw [wsLoop_cons_ok (by rw [h']; exact incState_ok_running sc)]
        exact ih _ _ _ hbad
      · rw [wsLoop_cons_ok (by rw [h']; exact incState_ok_done sc)]
        exact ih _ _ _ hbad
      · rw [wsLoop_cons_ok (by rw [h']; exact incState_ok_killed sc)]
        exact ih _ _ _ hbad
    · have hf : validState e.2.state = false := Bool.eq_false_iff.mpr hval
      exact ⟨"KeyError: " ++ e.2.state, wsLoop_cons_err (incState_err _ _ hf)⟩

theorem get_workflow_status_err (doc : List (String × StatusRecord))
    (h : ∃ e ∈ doc, validState e.2.state = false) :
    ∃ m, get_workflow_status doc = .error m := by
  rcases wsLoop_err doc ⟨0, 0, 0, 0⟩ (fun _ => 0) (fun _ => 0) h with ⟨m, hm⟩
  exact ⟨m, by rw [get_workflow_status, hm]⟩

theorem cntReason_eq_cntReasonEq (doc : List (String × StatusRecord))
    (r : String) (hr : r ≠ "") : cntReason doc r = cntReasonEq doc r := by
  induction doc with
  | nil => rfl
  | cons e rest ih =>
    simp only [cntReason, cntReasonEq, ih]
    congr 1
    match h : e.2.reason with
    | none => simp [truthy, h]
    | some s =>
      by_cases hs : s = ""
      · subst hs
        simp [truthy, h, Ne.symm hr]
      · simp only [truthy, h, if_neg hs]
        by_cases hsr : s = r
        · simp [hsr]
        · simp [hsr]

theorem cntReasonEq_le_length (doc : List (String × StatusRecord)) (r : String) :
    cntReasonEq doc r ≤ doc.length := by
  induction doc with
  | nil => simp [cntReasonEq]
  | cons e rest ih =>
    simp only [cntReasonEq, List.length_cons]
    split <;> omega

/-! ## Helper lemmas: filesystem model -/

theorem FS.read_write_same (fs : FS) (p : FPath) (d : FData) :
    (fs.writeFile p d).read p = some d := by
  simp [FS.read, FS.writeFile]

theorem FS.read_write_ne (fs : FS) {p q : FPath} (d : FData) (h : q ≠ p) :
    (fs.writeFile p d).read q = fs.read q := by
  simp only [FS.read, FS.writeFile]
  rw [List.find?_cons_of_neg]
  simp [Ne.symm h]

theorem FS.dirs_write (fs : FS) (p : FPath) (d : FData) :
    (fs.writeFile p d).dirs = fs.dirs := rfl

theorem FS.files_mkdirOk (fs : FS) (d : String) :
    (fs.mkdirOk d).files = fs.files := by
  unfold FS.mkdirOk; split <;> rfl

theorem FS.read_mkdirOk (fs : FS) (d : String) (p : FPath) :
    (fs.mkdirOk d).read p = fs.read p := by
  simp [FS.read, FS.files_mkdirOk]

theorem FS.files_mkdirStrict (fs : FS) (d : String) :
    ((fs.mkdirStrict d).1).files = fs.files := by
  unfold FS.mkdirStrict; split <;> rfl

theorem FS.read_mkdirStrict (fs : FS) (d : String) (p : FPath) :
    ((fs.mkdirStrict d).1).read p = fs.read p := by
  simp [FS.read, FS.files_mkdirStrict]

theorem FS.read_copyInto (fs : FS) (src : FPath) (dstDir : String) {q : FPath}
    (h : q.1 ≠ dstDir) : ((fs.copyInto src dstDir).1).read q = fs.read q := by
  unfold FS.copyInto
  match fs.read src with
  | none => rfl
  | some d =>
    exact fs.read_write_ne d (fun hq => h (by rw [hq]))

theorem FS.dirs_copyInto (fs : FS) (src : FPath) (dstDir : String) :
    ((fs.copyInto src dstDir).1).dirs = fs.dirs := by
  unfold FS.copyInto
  match fs.read src with
  | none => rfl
  | some d => rfl

theorem FS.mem_dirs_mkdirOk (fs : FS) {d : String} (e : String)
    (h : e ∈ fs.dirs) : e ∈ (fs.mkdirOk d).dirs := by
  unfold FS.mkdirOk; split
  · exact h
  · exact List.mem_cons_of_mem d h

theorem FS.mem_dirs_mkdirStrict (fs : FS) {d : String} (e : String)
    (h : e ∈ fs.dirs) : e ∈ ((fs.mkdirStrict d).1).dirs := by
  unfold FS.mkdirStrict; split
  · exact h
  · exact List.mem_cons_of_mem d h

theorem copyInputs_read (inputs : List FPath) (dstDir : String) :
    ∀ (fs : FS) {q : FPath}, q.1 ≠ dstDir →
      ((copyInputs inputs dstDir fs).1).read q = fs.read q := by
  induction inputs with
  | nil => intro fs q _; rfl
  | cons src rest ih =>
    intro fs q h
    unfold copyInputs
    match hc : fs.copyInto src dstDir with
    | (fs', some e) =>
      have : fs'.read q = fs.read q := by
        have := fs.read_copyInto src dstDir h
        rw [hc] at this; exact this
      simpa [hc] using this
    | (fs', none) =>
      have hpres : fs'.read q = fs.read q := by
        have := fs.read_copyInto src dstDir h
        rw [hc] at this; exact this
      rw [ih fs' h, hpres]

theorem copyInputs_dirs (inputs : List FPath) (dstDir : String) :
    ∀ (fs : FS), ((copyInputs inputs dstDir fs).1).dirs = fs.dirs := by
  induction inputs with
  | nil => intro fs; rfl
  | cons src rest ih =>
    intro fs
    unfold copyInputs
    match hc : fs.copyInto src dstDir with
    | (fs', some e) =>
      have := fs.dirs_copyInto src dstDir
      rw [hc] at this; exact this
    | (fs', none) =>
      have hd : fs'.dirs = fs.dirs := by
        have := fs.dirs_copyInto src dstDir
        rw [hc] at this; exact this
      rw [ih fs', hd]

theorem adios_xml_transform_read (fs : FS) (p : FPath) (g v val : String)
    {q : FPath} (h : q.1 ≠ p.1) :
    ((adios_xml_transform fs p g v val).1).read q = fs.read q := by
  unfold adios_xml_transform
  rcases hread : fs.read p with _ | d
  · rfl
  · cases d with
    | text s => rfl
    | fob f => rfl
    | fobLines l => rfl
    | xml vars =>
      simp only []
      split
      · exact fs.read_write_ne _ (fun hq => h (by rw [hq]))
      · rfl

theorem adios_xml_transform_dirs (fs : FS) (p : FPath) (g v val : String) :
    ((adios_xml_transform fs p g v val).1).dirs = fs.dirs := by
  unfold adios_xml_transform
  rcases hread : fs.read p with _ | d
  · rfl
  · cases d with
    | text s => rfl
    | fob f => rfl
    | fobLines l => rfl
    | xml vars =>
      simp only []
      split <;> rfl

theorem applyAdios_read (ps : List AdiosParam) (run_path : String) :
    ∀ (fs : FS) {q : FPath}, q.1 ≠ run_path →
      ((applyAdios ps run_path fs).1).read q = fs.read q := by
  induction ps with
  | nil => intro fs q _; rfl
  | cons pv rest ih =>
    intro fs q h
    unfold applyAdios
    match hc : adios_xml_transform fs (run_path, pv.xml_filename)
        pv.group_name pv.var_name pv.value with
    | (fs', some e) =>
      have := adios_xml_transform_read fs (run_path, pv.xml_filename)
        pv.group_name pv.var_name pv.value (q := q) h
      rw [hc] at this; exact this
    | (fs', none) =>
      have hpres : fs'.read q = fs.read q := by
        have := adios_xml_transform_read fs (run_path, pv.xml_filename)
          pv.group_name pv.var_name pv.value (q := q) h
        rw [hc] at this; exact this
      rw [ih fs' h, hpres]

theorem applyAdios_dirs (ps : List AdiosParam) (run_path : String) :
    ∀ (fs : FS), ((applyAdios ps run_path fs).1).dirs = fs.dirs := by
  induction ps with
  | nil => intro fs; rfl
  | cons pv rest ih =>
    intro fs
    unfold applyAdios
    match hc : adios_xml_transform fs (run_path, pv.xml_filename)
        pv.group_name pv.var_name pv.value with
    | (fs', some e) =>
      have := adios_xml_transform_dirs fs (run_path, pv.xml_filename)
        pv.group_name pv.var_name pv.value
      rw [hc] at this; exact this
    | (fs', none) =>
      have hd : fs'.dirs = fs.dirs := by
        have := adios_xml_transform_dirs fs (run_path, pv.xml_filename)
          pv.group_name pv.var_name pv.value
        rw [hc] at this; exact this
      rw [ih fs', hd]

theorem processCodes_files (mn : String) (ppn : Nat) (sos : Bool)
    (t : Option Nat) (rp : String) :
    ∀ (codes : List CodeSpec) (fs : FS) (idx : Nat),
      ((processCodes mn ppn sos t rp codes fs idx).1).files = fs.files := by
  intro codes
  induction codes with
  | nil => intro fs idx; rfl
  | cons c rest ih =>
    intro fs idx
    unfold processCodes
    rcases hm : fs.mkdirStrict (tauDir rp c.cname) with ⟨fs1, e?⟩
    have hf1 : fs1.files = fs.files := by
      have := fs.files_mkdirStrict (tauDir rp c.cname)
      rw [hm] at this; exact this
    cases e? with
    | some e => simpa [hm] using hf1
    | none =>
      simp only [hm]
      rcases hr : processCodes mn ppn sos t rp rest fs1
          (if sos then idx + pyCeilDiv c.nprocs ppn else idx) with ⟨fs2, r⟩
      have hf2 : fs2.files = fs1.files := by
        have := ih fs1 (if sos then idx + pyCeilDiv c.nprocs ppn else idx)
        rw [hr] at this; exact this
      cases r with
      | error e => simp only [hr]; rw [hf2, hf1]
      | ok pr => simp only [hr]; rw [hf2, hf1]

theorem processCodes_read (mn : String) (ppn : Nat) (sos : Bool)
    (t : Option Nat) (rp : String) (codes : List CodeSpec) (fs : FS)
    (idx : Nat) (q : FPath) :
    ((processCodes mn ppn sos t rp codes fs idx).1).read q = fs.read q := by
  simp [FS.read, processCodes_files]

theorem processCodes_mem_dirs (mn : String) (ppn : Nat) (sos : Bool)
    (t : Option Nat) (rp : String) :
    ∀ (codes : List CodeSpec) (fs : FS) (idx : Nat) (e : String),
      e ∈ fs.dirs → e ∈ ((processCodes mn ppn sos t rp codes fs idx).1).dirs := by
  intro codes
  induction codes with
  | nil => intro fs idx e he; exact he
  | cons c rest ih =>
    intro fs idx e he
    unfold processCodes
    rcases hm : fs.mkdirStrict (tauDir rp c.cname) with ⟨fs1, e?⟩
    have hd1 : e ∈ fs1.dirs := by
      have := fs.mem_dirs_mkdirStrict (d := tauDir rp c.cname) e he
      rw [hm] at this; exact this
    cases e? with
    | some err => simpa [hm] using hd1
    | none =>
      simp only [hm]
      rcases hr : processCodes mn ppn sos t rp rest fs1
          (if sos then idx + pyCeilDiv c.nprocs ppn else idx) with ⟨fs2, r⟩
      have hd2 : e ∈ fs2.dirs := by
        have := ih fs1 (if sos then idx + pyCeilDiv c.nprocs ppn else idx) e hd1
        rw [hr] at this; exact this
      cases r with
      | error err => simpa [hr] using hd2
      | ok pr => simpa [hr] using hd2

theorem processCodes_ok (mn : String) (ppn : Nat) (sos : Bool)
    (t : Option Nat) (rp : String) :
    ∀ (codes : List CodeSpec) (fs : FS) (idx : Nat)
      (es : List FobRunEntry) (i : Nat),
      (processCodes mn ppn sos t rp codes fs idx).2 = .ok (es, i) →
      es = fobEntriesPure mn ppn sos t rp codes idx := by
  intro codes
  induction codes with
  | nil =>
    intro fs idx es i h
    simp only [processCodes, Except.ok.injEq, Prod.mk.injEq] at h
    rw [← h.1]; rfl
  | cons c rest ih =>
    intro fs idx es i h
    unfold processCodes at h
    rcases hm : fs.mkdirStrict (tauDir rp c.cname) with ⟨fs1, e?⟩
    rw [hm] at h
    cases e? with
    | some err => simp at h
    | none =>
      simp only [] at h
      rcases hr : processCodes mn ppn sos t rp rest fs1
          (if sos then idx + pyCeilDiv c.nprocs ppn else idx) with ⟨fs2, r⟩
      rw [hr] at h
      cases r with
      | error err => simp at h
      | ok pr =>
        simp only [Except.ok.injEq, Prod.mk.injEq] at h
        have := ih fs1 (if sos then idx + pyCeilDiv c.nprocs ppn else idx)
          pr.1 pr.2 (by rw [hr])
        rw [← h.1, this]
        rfl

theorem stageRun_read (a : GroupArgs) (r : Run) (fs : FS) {q : FPath}
    (hq : q.1 ≠ r.run_path) :
    ((stageRun a r fs).1).read q = fs.read q := by
  unfold stageRun
  have h0 : (fs.mkdirOk r.run_path).read q = fs.read q := fs.read_mkdirOk _ q
  rcases htau : (match a.tau_config with
                 | none => (fs.mkdirOk r.run_path, none)
                 | some src => (fs.mkdirOk r.run_path).copyInto src r.run_path)
      with ⟨fs1, e?⟩
  have h1 : fs1.read q = fs.read q := by
    rcases htc : a.tau_config with _ | src
    · rw [htc] at htau
      simp only [Prod.mk.injEq] at htau
      rw [← htau.1]; exact h0
    · rw [htc] at htau
      simp only [] at htau
      have := (fs.mkdirOk r.run_path).read_copyInto src r.run_path (q := q) hq
      rw [htau] at this
      simp only [] at this
      rw [this]; exact h0
  cases e? with
  | some e => simpa [htau] using h1
  | none =>
    simp only [htau]
    rcases hci : copyInputs r.inputs r.run_path fs1 with ⟨fs2, e?⟩
    have h2 : fs2.read q = fs1.read q := by
      have := copyInputs_read r.inputs r.run_path fs1 (q := q) hq
      rw [hci] at this; exact this
    cases e? with
    | some e => simp only [hci]; rw [h2, h1]
    | none =>
      simp only [hci]
      rcases had : applyAdios r.adios_params r.run_path fs2 with ⟨fs3, e?⟩
      have h3 : fs3.read q = fs2.read q := by
        have := applyAdios_read r.adios_params r.run_path fs2 (q := q) hq
        rw [had] at this; exact this
      cases e? with
      | some e => simp only [had]; rw [h3, h2, h1]
      | none =>
        simp only [had]
        rw [FS.read_write_ne _ _ (fun hc => hq (by rw [hc])),
          FS.read_write_ne _ _ (fun hc => hq (by rw [hc])), h3, h2, h1]

theorem stageRun_dirs (a : GroupArgs) (r : Run) (fs : FS) :
    ((stageRun a r fs).1).dirs = (fs.mkdirOk r.run_path).dirs := by
  unfold stageRun
  rcases htau : (match a.tau_config with
                 | none => (fs.mkdirOk r.run_path, none)
                 | some src => (fs.mkdirOk r.run_path).copyInto src r.run_path)
      with ⟨fs1, e?⟩
  have h1 : fs1.dirs = (fs.mkdirOk r.run_path).dirs := by
    rcases htc : a.tau_config with _ | src
    · rw [htc] at htau
      simp only [Prod.mk.injEq] at htau
      rw [← htau.1]
    · rw [htc] at htau
      simp only [] at htau
      have := (fs.mkdirOk r.run_path).dirs_copyInto src r.run_path
      rw [htau] at this
      simp only [] at this
      exact this
  cases e? with
  | some e => simpa [htau] using h1
  | none =>
    simp only [htau]
    rcases hci : copyInputs r.inputs r.run_path fs1 with ⟨fs2, e?⟩
    have h2 : fs2.dirs = fs1.dirs := by
      have := copyInputs_dirs r.inputs r.run_path fs1
      rw [hci] at this; exact this
    cases e? with
    | some e => simp only [hci]; rw [h2, h1]
    | none =>
      simp only [hci]
      rcases had : applyAdios r.adios_params r.run_path fs2 with ⟨fs3, e?⟩
      have h3 : fs3.dirs = fs2.dirs := by
        have := applyAdios_dirs r.adios_params r.run_path fs2
        rw [had] at this; exact this
      cases e? with
      | some e => simp only [had]; rw [h3, h2, h1]
      | none => simp only [had, FS.dirs_write]; rw [h3, h2, h1]

theorem processRun_read (cfg : LauncherCfg) (machine : Machine) (a : GroupArgs)
    (r : Run) (fs : FS) {q : FPath} (hq : q.1 ≠ r.run_path) :
    ((processRun cfg machine a r fs).1).read q = fs.read q := by
  unfold processRun
  rcases hst : stageRun a r fs with ⟨fs5, e?⟩
  have h5 : fs5.read q = fs.read q := by
    have := stageRun_read a r fs hq
    rw [hst] at this; exact this
  cases e? with
  | some e => simpa [hst] using h5
  | none =>
    simp only [hst]
    rcases hpc : processCodes cfg.machine_name machine.processes_per_node a.sos
        a.timeout r.run_path r.codes fs5 0 with ⟨fs6, res⟩
    have h6 : fs6.read q = fs5.read q := by
      have := processCodes_read cfg.machine_name machine.processes_per_node
        a.sos a.timeout r.run_path r.codes fs5 0 q
      rw [hpc] at this; exact this
    cases res with
    | error e => simp only [hpc]; rw [h6, h5]
    | ok pr =>
      simp only [hpc]
      rw [FS.read_write_ne _ _ (fun hc => hq (by rw [hc])), h6, h5]

theorem processRun_mem_dirs (cfg : LauncherCfg) (machine : Machine)
    (a : GroupArgs) (r : Run) (fs : FS) (e : String) (he : e ∈ fs.dirs) :
    e ∈ ((processRun cfg machine a r fs).1).dirs := by
  unfold processRun
  rcases hst : stageRun a r fs with ⟨fs5, e?⟩
  have h5 : e ∈ fs5.dirs := by
    have hd := stageRun_dirs a r fs
    rw [hst] at hd
    rw [show fs5.dirs = (fs.mkdirOk r.run_path).dirs from hd]
    exact fs.mem_dirs_mkdirOk e he
  cases e? with
  | some err => simpa [hst] using h5
  | none =>
    simp only [hst]
    rcases hpc : processCodes cfg.machine_name machine.processes_per_node a.sos
        a.timeout r.run_path r.codes fs5 0 with ⟨fs6, res⟩
    have h6 : e ∈ fs6.dirs := by
      have := processCodes_mem_dirs cfg.machine_name machine.processes_per_node
        a.sos a.timeout r.run_path r.codes fs5 0 e h5
      rw [hpc] at this; exact this
    cases res with
    | error err => simpa [hpc] using h6
    | ok pr => simpa [hpc] using h6

theorem processRun_ok (cfg : LauncherCfg) (machine : Machine) (a : GroupArgs)
    (r : Run) (fs : FS) (fs' : FS) (fob : Fob)
    (h : processRun cfg machine a r fs = (fs', .ok fob)) :
    fob = pureFob cfg machine a r ∧
      fs'.read (r.run_path, "codar.cheetah.fob.json") = some (.fob fob) := by
  unfold processRun at h
  rcases hst : stageRun a r fs with ⟨fs5, e?⟩
  rw [hst] at h
  cases e? with
  | some e => simp at h
  | none =>
    simp only [] at h
    rcases hpc : processCodes cfg.machine_name machine.processes_per_node a.sos
        a.timeout r.run_path r.codes fs5 0 with ⟨fs6, res⟩
    rw [hpc] at h
    cases res with
    | error e => simp at h
    | ok pr =>
      simp only [Prod.mk.injEq] at h
      obtain ⟨hfs', hok⟩ := h
      have hentries : pr.1 = fobEntriesPure cfg.machine_name
          machine.processes_per_node a.sos a.timeout r.run_path r.codes 0 :=
        processCodes_ok _ _ _ _ _ r.codes fs5 0 pr.1 pr.2 (by rw [hpc])
      have hf : mkFob a r pr.1 = fob := by simpa using hok
      have hfob : fob = pureFob cfg machine a r := by
        rw [← hf, pureFob, ← hentries]
      refine ⟨hfob, ?_⟩
      rw [← hfs', hf]
      exact FS.read_write_same _ _ _

theorem materializeRuns_read (cfg : LauncherCfg) (machine : Machine)
    (a : GroupArgs) :
    ∀ (runs : List Run) (fs : FS) (acc : List Fob) {q : FPath},
      q.1 ∉ runs.map Run.run_path → q.1 ≠ cfg.output_directory →
      ((materializeRuns cfg machine a runs fs acc).1).read q = fs.read q := by
  intro runs
  induction runs with
  | nil => intro fs acc q _ _; rfl
  | cons r rest ih =>
    intro fs acc q hnm hq
    have hqr : q.1 ≠ r.run_path := by
      intro h; exact hnm (by rw [List.map_cons]; exact h ▸ List.mem_cons_self _ _)
    have hnm' : q.1 ∉ rest.map Run.run_path := by
      intro h; exact hnm (by rw [List.map_cons]; exact List.mem_cons_of_mem _ h)
    unfold materializeRuns
    rcases hp : processRun cfg machine a r fs with ⟨fs', res⟩
    have hpr : fs'.read q = fs.read q := by
      have := processRun_read cfg machine a r fs hqr
      rw [hp] at this; exact this
    cases res with
    | error e => simpa [hp] using hpr
    | ok fob =>
      simp only [hp]
      rw [ih _ _ hnm' hq]
      rw [FS.read_write_ne _ _ (fun hc => hq (by rw [hc]; rfl)), hpr]

theorem materializeRuns_mem_dirs (cfg : LauncherCfg) (machine : Machine)
    (a : GroupArgs) :
    ∀ (runs : List Run) (fs : FS) (acc : List Fob) (e : String),
      e ∈ fs.dirs → e ∈ ((materializeRuns cfg machine a runs fs acc).1).dirs := by
  intro runs
  induction runs with
  | nil => intro fs acc e he; exact he
  | cons r rest ih =>
    intro fs acc e he
    unfold materializeRuns
    rcases hp : processRun cfg machine a r fs with ⟨fs', res⟩
    have h' : e ∈ fs'.dirs := by
      have := processRun_mem_dirs cfg machine a r fs e he
      rw [hp] at this; exact this
    cases res with
    | error err => simpa [hp] using h'
    | ok fob =>
      simp only [hp]
      exact ih _ _ e h'

theorem materializeRuns_spec (cfg : LauncherCfg) (machine : Machine)
    (a : GroupArgs) :
    ∀ (runs : List Run) (fs : FS) (acc : List Fob),
      (∀ r ∈ runs, r.run_path ≠ cfg.output_directory) →
      (runs.map Run.run_path).Nodup →
      fs.read (fobsPath cfg) = some (.fobLines acc) →
      ∃ k, k ≤ runs.length ∧
        ((materializeRuns cfg machine a runs fs acc).1).read (fobsPath cfg)
          = some (.fobLines (acc ++ (runs.take k).map (pureFob cfg machine a))) ∧
        ((materializeRuns cfg machine a runs fs acc).2 = none ↔ k = runs.length) ∧
        (∀ r ∈ runs.take k,
          ((materializeRuns cfg machine a runs fs acc).1).read
            (r.run_path, "codar.cheetah.fob.json")
            = some (.fob (pureFob cfg machine a r))) := by
  intro runs
  induction runs with
  | nil =>
    intro fs acc _ _ hagg
    exact ⟨0, Nat.le_refl 0, by simpa using hagg, by simp [materializeRuns],
      by simp⟩
  | cons r rest ih =>
    intro fs acc hout hnd hagg
    have houtr : r.run_path ≠ cfg.output_directory :=
      hout r (List.mem_cons_self r rest)
    have hfq : (fobsPath cfg).1 ≠ r.run_path := fun h => houtr h.symm
    unfold materializeRuns
    rcases hp : processRun cfg machine a r fs with ⟨fs', res⟩
    cases res with
    | error e =>
      refine ⟨0, Nat.zero_le _, ?_, ?_, ?_⟩
      · have hpr : fs'.read (fobsPath cfg) = fs.read (fobsPath cfg) := by
          have := processRun_read cfg machine a r fs hfq
          rw [hp] at this; exact this
        simp only [hp]
        rw [hpr, hagg]
        simp
      · simp [hp]
      · simp
    | ok fob =>
      obtain ⟨hfob, hfile⟩ := processRun_ok cfg machine a r fs fs' fob hp
      have hout' : ∀ x ∈ rest, x.run_path ≠ cfg.output_directory :=
        fun x hx => hout x (List.mem_cons_of_mem r hx)
      have hnd' : (rest.map Run.run_path).Nodup := by
        rw [List.map_cons] at hnd; exact (List.nodup_cons.mp hnd).2
      have hrnm : r.run_path ∉ rest.map Run.run_path := by
        rw [List.map_cons] at hnd; exact (List.nodup_cons.mp hnd).1
      have hagg'' :
          (fs'.writeFile (fobsPath cfg) (.fobLines (acc ++ [fob]))).read
            (fobsPath cfg) = some (.fobLines (acc ++ [fob])) :=
        FS.read_write_same _ _ _
      obtain ⟨k, hk, Hagg, Hiff, Hfiles⟩ :=
        ih (fs'.writeFile (fobsPath cfg) (.fobLines (acc ++ [fob])))
          (acc ++ [fob]) hout' hnd' hagg''
      refine ⟨k + 1, by simpa using Nat.succ_le_succ hk, ?_, ?_, ?_⟩
      · simp only [hp]
        rw [Hagg, hfob]
        simp [List.take_succ_cons]
      · simp only [hp, List.length_cons]
        rw [Hiff]
        omega
      · intro x hx
        rw [List.take_succ_cons] at hx
        rcases List.mem_cons.mp hx with rfl | hx'
        · simp only [hp]
          have h1 : (fs'.writeFile (fobsPath cfg)
              (.fobLines (acc ++ [fob]))).read
                (x.run_path, "codar.cheetah.fob.json") = some (.fob fob) := by
            rw [FS.read_write_ne _ _
              (fun hc => houtr (congrArg Prod.fst hc))]
            exact hfile
          rw [materializeRuns_read cfg machine a rest _ _ hrnm houtr, h1, hfob]
        · simp only [hp]
          exact Hfiles x hx'

/-- On a fresh start (template directory present, output directory absent),
`create_group_directory` runs the copy, the two group-file writes and then
the run loop over the truncated aggregate file. -/
theorem cgd_unfold (cfg : LauncherCfg) (machine : Machine) (a : GroupArgs)
    (so : List (String × String)) (runs : List Run) (fs : FS)
    (hscript : scriptDir cfg ∈ fs.dirs)
    (hfresh : cfg.output_directory ∉ fs.dirs) :
    create_group_directory cfg machine a so runs fs
      = materializeRuns cfg machine a runs
          (((FS.mk (cfg.output_directory :: fs.dirs) fs.files).writeFile
              (cfg.output_directory, "group-env.sh")
              (.text (groupEnvRender a so))).writeFile
            (fobsPath cfg) (.fobLines [])) [] := by
  unfold create_group_directory
  rw [if_neg (not_not_intro hscript)]
  have hct : fs.copytree (scriptDir cfg) cfg.output_directory
      = (FS.mk (cfg.output_directory :: fs.dirs) fs.files, none) := by
    unfold FS.copytree
    rw [if_neg (not_not_intro hscript), if_neg hfresh]
  rw [hct]

theorem cgd_spec (cfg : LauncherCfg) (machine : Machine) (a : GroupArgs)
    (so : List (String × String)) (runs : List Run) (fs : FS)
    (hscript : scriptDir cfg ∈ fs.dirs)
    (hfresh : cfg.output_directory ∉ fs.dirs)
    (hout : ∀ r ∈ runs, r.run_path ≠ cfg.output_directory)
    (hnd : (runs.map Run.run_path).Nodup) :
    ∃ k, k ≤ runs.length ∧
      ((create_group_directory cfg machine a so runs fs).1).read (fobsPath cfg)
        = some (.fobLines ((runs.take k).map (pureFob cfg machine a))) ∧
      ((create_group_directory cfg machine a so runs fs).2 = none
        ↔ k = runs.length) ∧
      (∀ r ∈ runs.take k,
        ((create_group_directory cfg machine a so runs fs).1).read
          (r.run_path, "codar.cheetah.fob.json")
          = some (.fob (pureFob cfg machine a r))) := by
  rw [cgd_unfold cfg machine a so runs fs hscript hfresh]
  obtain ⟨k, hk, Hagg, Hiff, Hfiles⟩ :=
    materializeRuns_spec cfg machine a runs _ [] hout hnd
      (FS.read_write_same _ _ _)
  exact ⟨k, hk, by simpa using Hagg, Hiff, Hfiles⟩

/-- Re-invoking `create_group_directory` when the group output directory
already exists fails (at the unsupported-scheduler check or at
`shutil.copytree`) without touching the filesystem. -/
theorem cgd_retry (cfg : LauncherCfg) (machine : Machine) (a : GroupArgs)
    (so : List (String × String)) (runs : List Run) (fs : FS)
    (h : cfg.output_directory ∈ fs.dirs) :
    (create_group_directory cfg machine a so runs fs).1 = fs ∧
      ((create_group_directory cfg machine a so runs fs).2).isSome := by
  unfold create_group_directory
  by_cases hs : scriptDir cfg ∈ fs.dirs
  · rw [if_neg (not_not_intro hs)]
    have hct : fs.copytree (scriptDir cfg) cfg.output_directory
        = (fs, some "FileExistsError") := by
      unfold FS.copytree
      rw [if_neg (not_not_intro hs), if_pos h]
    rw [hct]
    exact ⟨rfl, rfl⟩
  · rw [if_pos hs]
    exact ⟨rfl, rfl⟩

theorem cgd_outdir_mem (cfg : LauncherCfg) (machine : Machine) (a : GroupArgs)
    (so : List (String × String)) (runs : List Run) (fs : FS)
    (hscript : scriptDir cfg ∈ fs.dirs)
    (hfresh : cfg.output_directory ∉ fs.dirs) :
    cfg.output_directory
      ∈ ((create_group_directory cfg machine a so runs fs).1).dirs := by
  rw [cgd_unfold cfg machine a so runs fs hscript hfresh]
  exact materializeRuns_mem_dirs cfg machine a runs _ []
    cfg.output_directory (List.mem_cons_self _ _)

theorem fobEntriesPure_length (mn : String) (ppn : Nat) (sos : Bool)
    (t : Option Nat) (rp : String) :
    ∀ (codes : List CodeSpec) (idx : Nat),
      (fobEntriesPure mn ppn sos t rp codes idx).length = codes.length := by
  intro codes
  induction codes with
  | nil => intro idx; rfl
  | cons c rest ih =>
    intro idx
    simp only [fobEntriesPure, List.length_cons, ih]

theorem fobEntriesPure_offset (mn : String) (ppn : Nat) (t : Option Nat)
    (rp : String) :
    ∀ (codes : List CodeSpec) (idx j : Nat) (entry : FobRunEntry),
      (fobEntriesPure mn ppn true t rp codes idx).get? j = some entry →
      envLookup entry "SOS_LISTENER_RANK_OFFSET"
        = some (.int (idx + sosOffset ppn codes j)) := by
  intro codes
  induction codes with
  | nil => intro idx j entry h; simp [fobEntriesPure] at h
  | cons c rest ih =>
    intro idx j entry h
    cases j with
    | zero =>
      simp only [fobEntriesPure, List.get?] at h
      rw [Option.some.injEq] at h
      rw [← h]
      by_cases ht : matchesTitan mn <;>
        simp [envLookup, add_sos_env, ht, List.find?, sosOffset]
    | succ j' =>
      simp only [fobEntriesPure, List.get?] at h
      have := ih (idx + pyCeilDiv c.nprocs ppn) j' entry (by simpa using h)
      rw [this]
      have hs : sosOffset ppn (c :: rest) (j' + 1)
          = pyCeilDiv c.nprocs ppn + sosOffset ppn rest j' := by
        simp [sosOffset, List.take_succ_cons]
      rw [hs]
      congr 2
      omega

theorem sosOffset_mono (ppn : Nat) :
    ∀ (codes : List CodeSpec) (i j : Nat), i ≤ j →
      sosOffset ppn codes i ≤ sosOffset ppn codes j := by
  intro codes
  induction codes with
  | nil => intro i j _; simp [sosOffset]
  | cons c rest ih =>
    intro i j hij
    cases i with
    | zero => simp [sosOffset]
    | succ i' =>
      cases j with
      | zero => omega
      | succ j' =>
        simp only [sosOffset, List.take_succ_cons, List.map_cons, List.sum_cons]
        have := ih i' j' (Nat.succ_le_succ_iff.mp hij)
        simp only [sosOffset] at this
        omega

theorem scan_groups_prefix_ok (u : String) :
    ∀ (pre : List (String × GroupDir)) (ls : List (String × GroupReport))
      (rest : List (String × GroupDir)),
      scan_groups u none pre = (ls, none) →
      scan_groups u none (pre ++ rest)
        = (ls ++ (scan_groups u none rest).1, (scan_groups u none rest).2) := by
  intro pre
  induction pre with
  | nil =>
    intro ls rest h
    simp only [scan_groups, Prod.mk.injEq] at h
    rw [← h.1]
    rfl
  | cons p pre' ih =>
    intro ls rest h
    rcases p with ⟨name, g⟩
    simp only [scan_groups] at h ⊢
    rcases hsg : scan_group g with e | rep
    · rw [hsg] at h; simp at h
    · rw [hsg] at h
      simp only [List.append_eq] at h ⊢
      rcases hrec : scan_groups u none pre' with ⟨ls', err'⟩
      rw [hrec] at h
      simp only [Prod.mk.injEq] at h
      obtain ⟨hls, herr⟩ := h
      rw [herr] at hrec
      rw [← hls, ih ls' rest hrec]
      simp

/-! ## Claim theorems: status scanning -/

/-- C3 counterexample: a group directory whose status document and
walltime-record file are both present is reported `NOT SUBMITTED` — not
`DONE` — when the job-id file is absent, because the scan checks the job-id
file first. -/
theorem claim_C3_counterexample :
    scan_group exGroupNoJobid = .ok GroupReport.notSubmitted := rfl

/-- C3 (amended): for every group directory whose job-id file is present
with colon-delimited content and whose status document (with every run
state among the four known states) and walltime-record file are both
present, the scan reports DONE, computing failures as total runs minus the
count of runs whose `reason` equals the success sentinel `succeeded`;
it prints the `failures / total failed` form when failures is positive and
plain DONE when every run's reason is the success sentinel. -/
theorem claim_C3 (g : GroupDir) (content jobid : String)
    (doc : List (String × StatusRecord))
    (hj : g.jobid = some content) (hp : parse_jobid content = some jobid)
    (hs : g.status = .parsed doc) (hw : g.walltime_present = true)
    (hv : ∀ e ∈ doc, validState e.2.state = true) :
    (cntReasonEq doc "succeeded" < doc.length →
      scan_group g = .ok (.doneFailed
        (doc.length - cntReasonEq doc "succeeded") doc.length)) ∧
    (cntReasonEq doc "succeeded" = doc.length →
      scan_group g = .ok .done) := by
  have hok : cntReason doc "succeeded" = cntReasonEq doc "succeeded" :=
    cntReason_eq_cntReasonEq doc _ (by decide)
  have hscan : scan_group g
      = if cntReasonEq doc "succeeded" < doc.length then
          .ok (.doneFailed (doc.length - cntReasonEq doc "succeeded")
            doc.length)
        else .ok .done := by
    simp only [scan_group, hj, hp, hs, get_workflow_status_ok doc hv, hw,
      if_true, hok]
  refine ⟨fun h => ?_, fun h => ?_⟩
  · rw [hscan, if_pos h]
  · rw [hscan, if_neg (by omega)]

/-- C3 witness: a 3-run group with one `failed_timeout` reports
`DONE, 1 / 3 failed`. -/
theorem claim_C3_witness :
    (∀ e ∈ exDocOneFail, validState e.2.state = true) ∧
    scan_group exGroupDone = .ok (.doneFailed 1 3) := by
  refine ⟨by decide, ?_⟩
  have h := (claim_C3 exGroupDone "local:42" "42" exDocOneFail rfl rfl rfl rfl
    (by decide)).1 (by decide)
  simpa using h

/-- C4 counterexample: a group directory whose status document is present
and walltime-record file absent is reported `NOT SUBMITTED` — not
`IN PROGRESS` — when the job-id file is absent. -/
theorem claim_C4_counterexample :
    scan_group exGroupNoJobidRunning = .ok GroupReport.notSubmitted := rfl

/-- C4 (amended): for every group directory whose job-id file is present
with colon-delimited content, whose status document is present with every
run state among the four known states, and whose walltime-record file is
absent, the scan reports IN PROGRESS with the job id (the text after the
first colon) and the settled-run fraction `(total - in_progress) / total`,
where `in_progress` is the count of runs in state `running` plus the count
in state `not_started`. -/
theorem claim_C4 (g : GroupDir) (content jobid : String)
    (doc : List (String × StatusRecord))
    (hj : g.jobid = some content) (hp : parse_jobid content = some jobid)
    (hs : g.status = .parsed doc) (hw : g.walltime_present = false)
    (hv : ∀ e ∈ doc, validState e.2.state = true) :
    scan_group g = .ok (.inProgress jobid
      (doc.length - (cntState doc "running" + cntState doc "not_started"))
      doc.length) := by
  simp only [scan_group, hj, hp, hs, get_workflow_status_ok doc hv, hw,
    Bool.false_eq_true, if_false]

/-- C4 witness: 2 of 5 runs still running, job id `777`, reported
`IN PROGRESS, job 777, 3 / 5`. -/
theorem claim_C4_witness :
    (∀ e ∈ exDocRunning, validState e.2.state = true) ∧
    scan_group exGroupInProgress = .ok (.inProgress "777" 3 5) := by
  refine ⟨by decide, ?_⟩
  have h := claim_C4 exGroupInProgress "pbs:777" "777" exDocRunning rfl rfl
    rfl rfl (by decide)
  simpa using h

/-- C5 counterexample: with the job-id file present but holding no colon
(`"12345"`) and the status document absent, the scan raises `IndexError`
from `jobid.split(':')[1]` instead of reporting `NOT STARTED`. -/
theorem claim_C5_counterexample :
    scan_group exGroupBadJobid = .error "IndexError" := rfl

/-- C5 (amended): when the job-id file is absent the scan reports exactly
NOT SUBMITTED without reading any other artifact (the conclusion holds for
every status/walltime content, even a malformed one), and when the job-id
file is present with colon-delimited content but the status document is
absent it reports NOT STARTED; neither missing-artifact condition raises.
(The job-id content restriction is forced: the scan splits the content on
`':'` and indexes element 1 before looking at the status document.) -/
theorem claim_C5 :
    (∀ g : GroupDir, g.jobid = none →
      scan_group g = .ok .notSubmitted) ∧
    (∀ (g : GroupDir) (content jobid : String), g.jobid = some content →
      parse_jobid content = some jobid → g.status = .absent →
      scan_group g = .ok .notStarted) := by
  constructor
  · intro g hj
    simp only [scan_group, hj]
  · intro g content jobid hj hp hs
    simp only [scan_group, hj, hp, hs]

/-- C5 witness: a group with only a malformed status document and a
walltime file but no job-id file reports `NOT SUBMITTED`; a submitted group
with job-id `local:9` and no status document reports `NOT STARTED`. -/
theorem claim_C5_witness :
    scan_group exGroupOnlyMalformed = .ok .notSubmitted ∧
    scan_group exGroupSubmitted = .ok .notStarted :=
  ⟨claim_C5.1 exGroupOnlyMalformed rfl,
   claim_C5.2 exGroupSubmitted "local:9" "9" rfl rfl rfl⟩

/-- C6: `get_workflow_status` on the empty status document returns the four
empty summaries without raising; and on any document whose states are all
known it succeeds — records may freely omit `reason` (or carry a falsy
empty one) and `return_codes`: a reason is counted only where present and
truthy, and the per-component return codes are flattened into value
counts. -/
theorem claim_C6 :
    (get_workflow_status []
      = .ok ⟨[], ⟨0, 0, 0, 0⟩, fun _ => 0, fun _ => 0⟩) ∧
    (∀ doc : List (String × StatusRecord),
      (∀ e ∈ doc, validState e.2.state = true) →
      get_workflow_status doc = .ok
        ⟨doc,
         ⟨cntState doc "not_started", cntState doc "running",
          cntState doc "done", cntState doc "killed"⟩,
         fun r => cntReason doc r, fun v => cntRC doc v⟩) :=
  ⟨rfl, fun doc hv => get_workflow_status_ok doc hv⟩

/-- C6 witness: a record with neither `reason` nor `return_codes` is
aggregated without error. -/
theorem claim_C6_witness :
    (∀ e ∈ exDocMissing, validState e.2.state = true) ∧
    get_workflow_status exDocMissing = .ok
      ⟨exDocMissing,
       ⟨cntState exDocMissing "not_started", cntState exDocMissing "running",
        cntState exDocMissing "done", cntState exDocMissing "killed"⟩,
       fun r => cntReason exDocMissing r, fun v => cntRC exDocMissing v⟩ :=
  ⟨by decide, claim_C6.2 exDocMissing (by decide)⟩

/-- C7 counterexample: with the first group's status document malformed,
the whole scan aborts — the later healthy group `alice/g2` and the later
user `bob` are never reported, contradicting the claim that the error
surfaces per-group. -/
theorem claim_C7_counterexample :
    print_campaign_status none none exCampaign
      = ([], some "json.JSONDecodeError") ∧
    scan_group exGroupHealthy = .ok .notSubmitted :=
  ⟨rfl, rfl⟩

/-- C7 (amended): a malformed (unparseable) status document is a hard
failure of the scan, but the exception propagates out of the whole
campaign walk: the reports printed are exactly those of the groups scanned
before the failing one, and all later groups and users are dropped. -/
theorem claim_C7 (u name : String) (pre post : List (String × GroupDir))
    (g : GroupDir) (ls : List (String × GroupReport)) (e : String)
    (more : List (String × List (String × GroupDir)))
    (hpre : scan_groups u none pre = (ls, none))
    (hg : scan_group g = .error e) :
    print_campaign_status none none ((u, pre ++ (name, g) :: post) :: more)
      = (ls, some e) := by
  have h1 : scan_groups u none (pre ++ (name, g) :: post) = (ls, some e) := by
    rw [scan_groups_prefix_ok u pre ls ((name, g) :: post) hpre]
    simp [scan_groups, hg]
  simp [print_campaign_status, h1]

/-- C7 witness: concrete abort — group `g1` precedes the malformed group,
so only `alice/g1` is reported and the rest of the tree is dropped. -/
theorem claim_C7_witness :
    print_campaign_status none none
      [("alice", [("g0", exGroupHealthy), ("gbad", exGroupMalformed),
                  ("g2", exGroupHealthy)]),
       ("bob", [("g3", exGroupHealthy)])]
      = ([("alice/g0", .notSubmitted)], some "json.JSONDecodeError") := by
  have h := claim_C7 "alice" "gbad" [("g0", exGroupHealthy)]
    [("g2", exGroupHealthy)] exGroupMalformed
    [("alice/g0", .notSubmitted)] "json.JSONDecodeError"
    [("bob", [("g3", exGroupHealthy)])] rfl rfl
  simpa using h

/-- C9: the aggregation is total only when every record's state is one of
`not_started`, `running`, `done`, `killed`: a document containing any other
state value makes `get_workflow_status` raise (the fixed-key count table
lookup), rather than counting or skipping the record; with all states
known it returns a result. -/
theorem claim_C9 :
    (∀ doc : List (String × StatusRecord),
      (∃ e ∈ doc, validState e.2.state = false) →
      ∃ m, get_workflow_status doc = .error m) ∧
    (∀ doc : List (String × StatusRecord),
      (∀ e ∈ doc, validState e.2.state = true) →
      ∃ w, get_workflow_status doc = .ok w) :=
  ⟨fun doc h => get_workflow_status_err doc h,
   fun doc hv => ⟨_, get_workflow_status_ok doc hv⟩⟩

/-- C9 witness: a document with state `exploded` raises `KeyError`. -/
theorem claim_C9_witness :
    (∃ e ∈ exDocBadState, validState e.2.state = false) ∧
    ∃ m, get_workflow_status exDocBadState = .error m :=
  ⟨by decide, claim_C9.1 exDocBadState (by decide)⟩

/-! ## Claim theorems: run materializer -/

/-- C8: requesting a scheduler backend whose template directory does not
exist fails with the `ValueError` immediately, before any file or
directory is created or mutated — the resulting filesystem is the input
filesystem unchanged. -/
theorem claim_C8 (cfg : LauncherCfg) (machine : Machine) (a : GroupArgs)
    (so : List (String × String)) (runs : List Run) (fs : FS)
    (h : scriptDir cfg ∉ fs.dirs) :
    create_group_directory cfg machine a so runs fs
      = (fs, some (unsupportedMsg cfg)) := by
  unfold create_group_directory
  rw [if_pos h]

/-- C8 witness: the `slurm` backend has no template directory under the
scripts root, so materialization fails leaving the filesystem untouched. -/
theorem claim_C8_witness :
    scriptDir exCfgBad ∉ exFS.dirs ∧
    create_group_directory exCfgBad exMachine exArgs [] [exRun1] exFS
      = (exFS, some (unsupportedMsg exCfgBad)) :=
  ⟨by decide,
   claim_C8 exCfgBad exMachine exArgs [] [exRun1] exFS (by decide)⟩

/-- C1: in a run materialized with sos integration enabled, the
`SOS_LISTENER_RANK_OFFSET` value of the j-th code invocation's environment
equals the sum of `ceil(nprocs_k / machine.processes_per_node)` over all
prior invocations `k < j` in declaration order (`sosOffset`), so it is `0`
for the first invocation and monotonically non-decreasing across the
invocations of the run. -/
theorem claim_C1 (cfg : LauncherCfg) (machine : Machine) (a : GroupArgs)
    (so : List (String × String)) (runs : List Run) (fs : FS)
    (hscript : scriptDir cfg ∈ fs.dirs)
    (hfresh : cfg.output_directory ∉ fs.dirs)
    (hout : ∀ r ∈ runs, r.run_path ≠ cfg.output_directory)
    (hnd : (runs.map Run.run_path).Nodup)
    (hsos : a.sos = true)
    (_hppn : 0 < machine.processes_per_node)
    (herr : (create_group_directory cfg machine a so runs fs).2 = none) :
    ∀ r ∈ runs, ∃ f : Fob,
      ((create_group_directory cfg machine a so runs fs).1).read
          (r.run_path, "codar.cheetah.fob.json") = some (.fob f) ∧
      f.runs.length = r.codes.length ∧
      (∀ (j : Nat) (entry : FobRunEntry), f.runs.get? j = some entry →
        envLookup entry "SOS_LISTENER_RANK_OFFSET"
          = some (.int (sosOffset machine.processes_per_node r.codes j))) ∧
      (∀ i j : Nat, i ≤ j →
        sosOffset machine.processes_per_node r.codes i
          ≤ sosOffset machine.processes_per_node r.codes j) := by
  obtain ⟨k, hk, Hagg, Hiff, Hfiles⟩ :=
    cgd_spec cfg machine a so runs fs hscript hfresh hout hnd
  have hkall : k = runs.length := Hiff.mp herr
  intro r hr
  have hrtake : r ∈ runs.take k := by
    rw [hkall, List.take_length]; exact hr
  refine ⟨pureFob cfg machine a r, Hfiles r hrtake, ?_, ?_,
    fun i j hij => sosOffset_mono machine.processes_per_node r.codes i j hij⟩
  · simp [pureFob, mkFob, fobEntriesPure_length]
  · intro j entry hget
    simp only [pureFob, mkFob, hsos] at hget
    have := fobEntriesPure_offset cfg.machine_name
      machine.processes_per_node a.timeout r.run_path r.codes 0 j entry hget
    simpa using this

/-- C1 witness: two invocations with `nprocs` 3 and 1 on a
2-processes-per-node machine; the first offset is `0`, the second
`ceil(3/2) = 2`. -/
theorem claim_C1_witness :
    (create_group_directory exCfg exMachine exArgs [] [exRun1, exRun2]
      exFS).2 = none ∧
    (∀ r ∈ [exRun1, exRun2], ∃ f : Fob,
      ((create_group_directory exCfg exMachine exArgs [] [exRun1, exRun2]
          exFS).1).read (r.run_path, "codar.cheetah.fob.json")
        = some (.fob f) ∧
      f.runs.length = r.codes.length ∧
      (∀ (j : Nat) (entry : FobRunEntry), f.runs.get? j = some entry →
        envLookup entry "SOS_LISTENER_RANK_OFFSET"
          = some (.int (sosOffset exMachine.processes_per_node r.codes j))) ∧
      (∀ i j : Nat, i ≤ j →
        sosOffset exMachine.processes_per_node r.codes i
          ≤ sosOffset exMachine.processes_per_node r.codes j)) :=
  ⟨by decide,
   claim_C1 exCfg exMachine exArgs [] [exRun1, exRun2] exFS (by decide)
     (by decide) (by decide) (by decide) rfl (by decide) (by decide)⟩

/-- C2: over a fresh group materialization, some prefix of `k` runs is
materialized successfully; the aggregate `fobs.json` holds exactly one
line per successfully materialized run — the very descriptor value also
written standalone to that run's directory, hence the identical
serialization — with `k = runs.length` exactly when no error occurred
(so a mid-batch crash leaves lines `0..k-1` intact); and re-invoking the
materialization on the resulting state (the simulated resume) fails at the
`copytree` of the existing group directory, changing nothing and
duplicating no line. -/
theorem claim_C2 (cfg : LauncherCfg) (machine : Machine) (a : GroupArgs)
    (so : List (String × String)) (runs : List Run) (fs : FS)
    (hscript : scriptDir cfg ∈ fs.dirs)
    (hfresh : cfg.output_directory ∉ fs.dirs)
    (hout : ∀ r ∈ runs, r.run_path ≠ cfg.output_directory)
    (hnd : (runs.map Run.run_path).Nodup) :
    ∃ k, k ≤ runs.length ∧
      ((create_group_directory cfg machine a so runs fs).1).read
          (fobsPath cfg)
        = some (.fobLines ((runs.take k).map (pureFob cfg machine a))) ∧
      ((create_group_directory cfg machine a so runs fs).2 = none
        ↔ k = runs.length) ∧
      (∀ r ∈ runs.take k,
        ((create_group_directory cfg machine a so runs fs).1).read
          (r.run_path, "codar.cheetah.fob.json")
          = some (.fob (pureFob cfg machine a r))) ∧
      ((create_group_directory cfg machine a so runs
          ((create_group_directory cfg machine a so runs fs).1)).1
        = (create_group_directory cfg machine a so runs fs).1 ∧
       ((create_group_directory cfg machine a so runs
          ((create_group_directory cfg machine a so runs fs).1)).2).isSome) := by
  obtain ⟨k, hk, Hagg, Hiff, Hfiles⟩ :=
    cgd_spec cfg machine a so runs fs hscript hfresh hout hnd
  refine ⟨k, hk, Hagg, Hiff, Hfiles, ?_⟩
  exact cgd_retry cfg machine a so runs _
    (cgd_outdir_mem cfg machine a so runs fs hscript hfresh)

/-- C2 witness: the concrete two-run materialization satisfies the
aggregate/standalone/retry invariants. -/
theorem claim_C2_witness :
    scriptDir exCfg ∈ exFS.dirs ∧
    (∃ k, k ≤ ([exRun1, exRun2] : List Run).length ∧
      ((create_group_directory exCfg exMachine exArgs [] [exRun1, exRun2]
          exFS).1).read (fobsPath exCfg)
        = some (.fobLines (([exRun1, exRun2].take k).map
            (pureFob exCfg exMachine exArgs))) ∧
      ((create_group_directory exCfg exMachine exArgs [] [exRun1, exRun2]
          exFS).2 = none ↔ k = ([exRun1, exRun2] : List Run).length) ∧
      (∀ r ∈ [exRun1, exRun2].take k,
        ((create_group_directory exCfg exMachine exArgs [] [exRun1, exRun2]
            exFS).1).read (r.run_path, "codar.cheetah.fob.json")
          = some (.fob (pureFob exCfg exMachine exArgs r))) ∧
      ((create_group_directory exCfg exMachine exArgs [] [exRun1, exRun2]
          ((create_group_directory exCfg exMachine exArgs []
            [exRun1, exRun2] exFS).1)).1
        = (create_group_directory exCfg exMachine exArgs [] [exRun1, exRun2]
            exFS).1 ∧
       ((create_group_directory exCfg exMachine exArgs [] [exRun1, exRun2]
          ((create_group_directory exCfg exMachine exArgs []
            [exRun1, exRun2] exFS).1)).2).isSome)) :=
  ⟨by decide,
   claim_C2 exCfg exMachine exArgs [] [exRun1, exRun2] exFS (by decide)
     (by decide) (by decide) (by decide)⟩

theorem mkdirOk_dirs_of_mem (fs : FS) (d : String) (h : d ∈ fs.dirs) :
    (fs.mkdirOk d).dirs = fs.dirs := by
  unfold FS.mkdirOk
  rw [if_pos h]

theorem stageRun_trivial (a : GroupArgs) (r : Run) (fs : FS)
    (htau : a.tau_config = none) (hinp : r.inputs = [])
    (hadi : r.adios_params = []) :
    stageRun a r fs
      = (((fs.mkdirOk r.run_path).writeFile
            (r.run_path, "codar.cheetah.run-params.txt")
            (.text (cmdText r))).writeFile
          (r.run_path, "codar.cheetah.run-params.json") (.text r.as_dict),
         none) := by
  simp [stageRun, htau, hinp, hadi, copyInputs, applyAdios]

theorem processCodes_head_exists (mn : String) (ppn : Nat) (sos : Bool)
    (t : Option Nat) (rp : String) (c : CodeSpec) (crest : List CodeSpec)
    (fs : FS) (idx : Nat) (h : tauDir rp c.cname ∈ fs.dirs) :
    processCodes mn ppn sos t rp (c :: crest) fs idx
      = (fs, .error "FileExistsError") := by
  unfold processCodes FS.mkdirStrict
  rw [if_pos h]

theorem processCodes_single_ok (mn : String) (ppn : Nat) (sos : Bool)
    (t : Option Nat) (rp : String) (c : CodeSpec) (fs : FS) (idx : Nat)
    (h : tauDir rp c.cname ∉ fs.dirs) :
    processCodes mn ppn sos t rp [c] fs idx
      = ({ fs with dirs := tauDir rp c.cname :: fs.dirs },
         .ok ([{ name := c.cname, exe := c.exe, args := c.args,
                 nprocs := c.nprocs, sleep_after := c.sleep_after,
                 env := if sos then add_sos_env mn rp ppn idx
                     [("PROFILEDIR", .str (tauDir rp c.cname))]
                   else [("PROFILEDIR", .str (tauDir rp c.cname))],
                 timeout := t }],
              if sos then idx + pyCeilDiv c.nprocs ppn else idx)) := by
  unfold processCodes FS.mkdirStrict
  rw [if_neg h]
  simp [processCodes]

theorem processRun_trivial_ok (cfg : LauncherCfg) (machine : Machine)
    (a : GroupArgs) (r : Run) (c : CodeSpec) (fs : FS)
    (htau : a.tau_config = none) (hinp : r.inputs = [])
    (hadi : r.adios_params = []) (hcodes : r.codes = [c])
    (h : tauDir r.run_path c.cname ∉ (fs.mkdirOk r.run_path).dirs) :
    ∃ fs' fob, processRun cfg machine a r fs = (fs', .ok fob) := by
  unfold processRun
  rw [stageRun_trivial a r fs htau hinp hadi]
  simp only []
  rw [hcodes]
  rw [processCodes_single_ok cfg.machine_name
    machine.processes_per_node a.sos a.timeout r.run_path c
    (((fs.mkdirOk r.run_path).writeFile
        (r.run_path, "codar.cheetah.run-params.txt")
        (.text (cmdText r))).writeFile
      (r.run_path, "codar.cheetah.run-params.json") (.text r.as_dict)) 0 h]
  exact ⟨_, _, rfl⟩

theorem processRun_trivial_exists (cfg : LauncherCfg) (machine : Machine)
    (a : GroupArgs) (r : Run) (c : CodeSpec) (crest : List CodeSpec) (fs : FS)
    (htau : a.tau_config = none) (hinp : r.inputs = [])
    (hadi : r.adios_params = []) (hcodes : r.codes = c :: crest)
    (h : tauDir r.run_path c.cname ∈ (fs.mkdirOk r.run_path).dirs) :
    (processRun cfg machine a r fs).2 = .error "FileExistsError" := by
  unfold processRun
  rw [stageRun_trivial a r fs htau hinp hadi]
  simp only []
  rw [hcodes]
  rw [processCodes_head_exists cfg.machine_name machine.processes_per_node
    a.sos a.timeout r.run_path c crest
    (((fs.mkdirOk r.run_path).writeFile
        (r.run_path, "codar.cheetah.run-params.txt")
        (.text (cmdText r))).writeFile
      (r.run_path, "codar.cheetah.run-params.json") (.text r.as_dict)) 0
    (show tauDir r.run_path c.cname
        ∈ (((fs.mkdirOk r.run_path).writeFile
              (r.run_path, "codar.cheetah.run-params.txt")
              (.text (cmdText r))).writeFile
            (r.run_path, "codar.cheetah.run-params.json")
            (.text r.as_dict)).dirs from h)]

/-- C10: group materialization is not idempotent at the run level despite
run-directory creation being idempotent: a run whose working directory
already exists on disk materializes fine (the `exist_ok` makedirs), but a
run whose per-invocation profiling directory already exists raises
`FileExistsError` (the bare makedirs at launchers.py:140), failing that
run's materialization. -/
theorem claim_C10 :
    (∀ (cfg : LauncherCfg) (machine : Machine) (a : GroupArgs)
       (so : List (String × String)) (r : Run) (c : CodeSpec) (fs : FS),
       scriptDir cfg ∈ fs.dirs → cfg.output_directory ∉ fs.dirs →
       a.tau_config = none → r.inputs = [] → r.adios_params = [] →
       r.codes = [c] → r.run_path ∈ fs.dirs →
       tauDir r.run_path c.cname ∉ fs.dirs →
       tauDir r.run_path c.cname ≠ cfg.output_directory →
       (create_group_directory cfg machine a so [r] fs).2 = none) ∧
    (∀ (cfg : LauncherCfg) (machine : Machine) (a : GroupArgs)
       (so : List (String × String)) (r : Run) (c : CodeSpec)
       (crest : List CodeSpec) (fs : FS),
       scriptDir cfg ∈ fs.dirs → cfg.output_directory ∉ fs.dirs →
       a.tau_config = none → r.inputs = [] → r.adios_params = [] →
       r.codes = c :: crest →
       tauDir r.run_path c.cname ∈ fs.dirs →
       (create_group_directory cfg machine a so [r] fs).2
         = some "FileExistsError") := by
  constructor
  · intro cfg machine a so r c fs hscript hfresh htau hinp hadi hcodes hrp
      htnot htne
    rw [cgd_unfold cfg machine a so [r] fs hscript hfresh]
    set FS2 : FS := ((FS.mk (cfg.output_directory :: fs.dirs)
        fs.files).writeFile (cfg.output_directory, "group-env.sh")
        (.text (groupEnvRender a so))).writeFile
      (fobsPath cfg) (.fobLines []) with hFS2
    have hdirs : (FS2.mkdirOk r.run_path).dirs
        = cfg.output_directory :: fs.dirs :=
      mkdirOk_dirs_of_mem FS2 r.run_path
        (show r.run_path ∈ FS2.dirs from List.mem_cons_of_mem _ hrp)
    have hnot : tauDir r.run_path c.cname ∉ (FS2.mkdirOk r.run_path).dirs := by
      rw [hdirs]
      intro hmem
      rcases List.mem_cons.mp hmem with heq | hmem'
      · exact htne heq
      · exact htnot hmem'
    obtain ⟨fs', fob, hp⟩ := processRun_trivial_ok cfg machine a r c FS2
      htau hinp hadi hcodes hnot
    simp [materializeRuns, hp]
  · intro cfg machine a so r c crest fs hscript hfresh htau hinp hadi hcodes
      htmem
    rw [cgd_unfold cfg machine a so [r] fs hscript hfresh]
    set FS2 : FS := ((FS.mk (cfg.output_directory :: fs.dirs)
        fs.files).writeFile (cfg.output_directory, "group-env.sh")
        (.text (groupEnvRender a so))).writeFile
      (fobsPath cfg) (.fobLines []) with hFS2
    have hmem : tauDir r.run_path c.cname
        ∈ (FS2.mkdirOk r.run_path).dirs :=
      FS2.mem_dirs_mkdirOk _
        (show tauDir r.run_path c.cname ∈ FS2.dirs from
          List.mem_cons_of_mem _ htmem)
    have hsnd := processRun_trivial_exists cfg machine a r c crest FS2
      htau hinp hadi hcodes hmem
    rcases hp : processRun cfg machine a r FS2 with ⟨fs', res⟩
    rw [hp] at hsnd
    simp only [] at hsnd
    subst hsnd
    simp [materializeRuns, hp]

/-- C10 witness: with `exRun1`'s run directory pre-existing, a single-code
run materializes without error; with the `sim` profiling directory
pre-existing, materialization of `exRun1` fails with `FileExistsError`. -/
theorem claim_C10_witness :
    (create_group_directory exCfg exMachine exArgs [] [exRunSolo]
      exFSRunDir).2 = none ∧
    (create_group_directory exCfg exMachine exArgs [] [exRun1]
      exFSTauDir).2 = some "FileExistsError" :=
  ⟨claim_C10.1 exCfg exMachine exArgs [] exRunSolo ⟨"sim", "/bin/sim", ["-x"], 3, none⟩
     exFSRunDir (by decide) (by decide) rfl rfl rfl rfl (by decide)
     (by decide) (by decide),
   claim_C10.2 exCfg exMachine exArgs [] exRun1 ⟨"sim", "/bin/sim", ["-x"], 3, none⟩
     [⟨"ana", "/bin/ana", [], 1, none⟩] exFSTauDir (by decide) (by decide)
     rfl rfl rfl rfl (by decide)⟩
